import Mathlib

/-!
Shallow embedding of the rfm panel manager (`src/panel/manager.rs`) and
verification of its specified properties.

Pure data is translated directly from the Rust source.  External
collaborators that the source only calls (worker channels, the keystroke
parser, `ManagedPanel`, `DirPanel`, the opener, the filesystem) are
modelled from the specification, as oracles gathered in an `Env` record;
their definitions carry a `Modelled from the spec:` comment.  Terminal
drawing is abstracted to its effect on the redraw flags, and filesystem
mutations are recorded in effect logs inside the manager state.
-/

namespace Rfm

/-- Filesystem paths, modelled as the list of components of a path. -/
abbrev Path := List String

/-- Rust `Path::file_name`: the final component (`None` for the empty path). -/
def pathFileName (p : Path) : Option String := p.getLast?

/-- Rust `Path::parent`: the path without its final component. -/
def pathParent (p : Path) : Option Path :=
  if p.isEmpty then Option.none else Option.some p.dropLast

/-- Rust `Path::with_file_name`: replace the final component. -/
def withFileName (p : Path) (n : String) : Path :=
  (if p.isEmpty then p else p.dropLast) ++ [n]

/-- `PanelState`: identity `(path, generation)` of a managed panel slot. -/
structure PanelState where
  path : Path
  cnt : Nat
deriving DecidableEq

/-- One entry of a directory listing (`DirElem`): its path and marked flag.
The display name and file kind are not needed by any verified property. -/
structure DirElem where
  path : Path
  marked : Bool
deriving DecidableEq

/-- Modelled from the spec: `DirPanel` (§3) — an ordered sequence of
`DirElem` plus the represented path, the selection index, the hidden-files
flag and the search substring.  The type itself lives outside `src/`. -/
structure DirPanel where
  path : Path
  elements : List DirElem
  selected : Option Nat
  search : Option String
  hidden : Bool
deriving DecidableEq

/-- Modelled from the spec: `PreviewPanel` (§3) — a directory preview, a
file preview, or nothing. -/
inductive PreviewPanel where
  | dir (panel : DirPanel)
  | file (p : Path)
  | empty
deriving DecidableEq

/-- `PreviewPanel::maybe_path`. -/
def PreviewPanel.maybePath : PreviewPanel → Option Path
  | .dir panel => Option.some panel.path
  | .file p => Option.some p
  | .empty => Option.none

/-- Modelled from the spec: `ManagedPanel<P>` (§4.2) — the current panel,
the slot's `PanelState`, the frozen flag; load requests it issued are
logged in `reqs` as `(requested path, generation, delayed?)`. -/
structure ManagedPanel (P : Type) where
  panel : P
  state : PanelState
  frozen : Bool
  reqs : List (Option Path × Nat × Bool)
deriving DecidableEq

/-- Modelled from the spec: `check_update(state)` is true iff the echoed
state equals the slot's current state and the slot is not frozen (§4.2). -/
def ManagedPanel.checkUpdate {P : Type} (mp : ManagedPanel P) (st : PanelState) : Bool :=
  decide (st = mp.state) && !mp.frozen

/-- Modelled from the spec: `freeze()` (§4.2). -/
def ManagedPanel.freeze {P : Type} (mp : ManagedPanel P) : ManagedPanel P :=
  { mp with frozen := true }

/-- Modelled from the spec: `unfreeze()` (§4.2). -/
def ManagedPanel.unfreeze {P : Type} (mp : ManagedPanel P) : ManagedPanel P :=
  { mp with frozen := false }

/-- Modelled from the spec: `update_panel(P)` swaps in a caller-provided
directory panel and advances the generation (§4.2). -/
def ManagedPanel.updatePanelD (mp : ManagedPanel DirPanel) (p : DirPanel) :
    ManagedPanel DirPanel :=
  { mp with panel := p, state := ⟨p.path, mp.state.cnt + 1⟩ }

/-- Modelled from the spec: `update_panel(P)` for the preview slot. -/
def ManagedPanel.updatePanelP (mp : ManagedPanel PreviewPanel) (p : PreviewPanel) :
    ManagedPanel PreviewPanel :=
  { mp with panel := p, state := ⟨p.maybePath.getD [], mp.state.cnt + 1⟩ }

/-- Modelled from the spec: `new_panel_instant(path?)` synchronously sets
the slot to a cached panel if available (an empty placeholder otherwise),
advances the generation, and issues an instant load request (§4.2).
The cache oracle supplies the elements stored for a path. -/
def ManagedPanel.newPanelInstantD (cache : Path → Option (List DirElem))
    (mp : ManagedPanel DirPanel) (pathOpt : Option Path) : ManagedPanel DirPanel :=
  let g := mp.state.cnt + 1
  match pathOpt with
  | Option.some p =>
      let elems := (cache p).getD []
      let panel : DirPanel :=
        { path := p, elements := elems,
          selected := if elems.isEmpty then Option.none else Option.some 0,
          search := Option.none, hidden := mp.panel.hidden }
      { mp with panel := panel, state := ⟨p, g⟩,
                reqs := mp.reqs ++ [(Option.some p, g, false)] }
  | Option.none =>
      let panel : DirPanel :=
        { path := [], elements := [], selected := Option.none,
          search := Option.none, hidden := mp.panel.hidden }
      { mp with panel := panel, state := ⟨[], g⟩,
                reqs := mp.reqs ++ [(Option.none, g, false)] }

/-- Modelled from the spec: `new_panel_delayed(path?)` advances the
generation at request time and issues a coalesced load request; the
displayed panel is unchanged until a completion arrives (§4.2, §9). -/
def ManagedPanel.newPanelDelayedP (mp : ManagedPanel PreviewPanel)
    (pathOpt : Option Path) : ManagedPanel PreviewPanel :=
  let g := mp.state.cnt + 1
  { mp with state := ⟨pathOpt.getD [], g⟩,
            reqs := mp.reqs ++ [(pathOpt, g, true)] }

/-- Modelled from the spec: `reload()` re-issues the load for the slot's
current path with a new generation (§4.2). -/
def ManagedPanel.reloadD (mp : ManagedPanel DirPanel) : ManagedPanel DirPanel :=
  let g := mp.state.cnt + 1
  { mp with state := ⟨mp.state.path, g⟩,
            reqs := mp.reqs ++ [(Option.some mp.state.path, g, false)] }

/-- Modelled from the spec: `reload()` for the preview slot. -/
def ManagedPanel.reloadP (mp : ManagedPanel PreviewPanel) : ManagedPanel PreviewPanel :=
  let g := mp.state.cnt + 1
  { mp with state := ⟨mp.state.path, g⟩,
            reqs := mp.reqs ++ [(Option.some mp.state.path, g, false)] }

/-- `DirPanel::selected_path`: the path of the selected element. -/
def selectedPath (p : DirPanel) : Option Path :=
  p.selected.bind (fun i => (p.elements.get? i).map (fun e => e.path))

/-- Modelled from the spec: `DirPanel::select_path` moves the selection to
the entry with the given path, if present. -/
def DirPanel.selectPath (p : DirPanel) (path : Path) : DirPanel :=
  match p.elements.findIdx? (fun e => decide (e.path = path)) with
  | Option.some i => { p with selected := Option.some i }
  | Option.none => p

/-- The `Redraw` flag set (one flag per screen region). -/
structure Redraw where
  left : Bool
  center : Bool
  right : Bool
  console : Bool
  log : Bool
  header : Bool
  footer : Bool
deriving DecidableEq

/-- `Redraw::any`. -/
def Redraw.any (r : Redraw) : Bool :=
  r.left || r.center || r.right || r.console || r.header || r.footer || r.log

/-- Modelled from the spec: the directory-completion console (`DirConsole`
lives outside `src/`); only its query is state, its key reactions are
oracles in `Env`. -/
structure DirConsole where
  query : List Char
deriving DecidableEq

/-- The `Mode` state machine of the manager. -/
inductive Mode where
  | normal
  | console (console : DirConsole)
  | createItem (input : String) (isDir : Bool)
  | search (input : String)
  | rename (input : String)
deriving DecidableEq

/-- Cursor movements (`Move`). -/
inductive Move where
  | up
  | down
  | left
  | right
  | top
  | bottom
  | halfPageForward
  | halfPageBackward
  | pageForward
  | pageBackward
  | jumpTo (p : Path)
  | jumpPrevious
deriving DecidableEq

/-- Commands produced by the keystroke parser (`Command`). -/
inductive Command where
  | move (m : Move)
  | toggleHidden
  | toggleLog
  | cd
  | search
  | rename
  | next
  | previous
  | mkdir
  | touch
  | mark
  | cut
  | copy
  | delete
  | paste (overwrite : Bool)
  | viewTrash
  | quit
  | none
deriving DecidableEq

/-- Terminal key codes used by the manager. -/
inductive KeyCode where
  | char (c : Char)
  | esc
  | enter
  | backspace
  | tab
  | backtab
  | other
deriving DecidableEq

/-- A terminal key event (modifiers are not inspected by the manager). -/
structure KeyEvent where
  code : KeyCode
deriving DecidableEq

/-- Terminal events. -/
inductive Event where
  | key (k : KeyEvent)
  | resize (w h : Nat)
  | other
deriving DecidableEq

/-- Modelled from the spec: the keystroke parser (§1, §4.4) — a binding
table from key sequences to commands plus the in-progress buffer.
`add_event` appends the key; an exact match fires its command and clears
the buffer, a strict prefix of a binding keeps the buffer, anything else
clears the buffer and yields `Command::None`. -/
structure ParserState where
  bindings : List (List KeyCode × Command)
  buf : List KeyCode
deriving DecidableEq

/-- Modelled from the spec: `CommandParser::clear`. -/
def parserClear (p : ParserState) : ParserState := { p with buf := [] }

/-- Modelled from the spec: `CommandParser::add_event`. -/
def parserAdd (p : ParserState) (k : KeyEvent) : ParserState × Command :=
  let b := p.buf ++ [k.code]
  match p.bindings.find? (fun x => decide (x.1 = b)) with
  | Option.some x => ({ p with buf := [] }, x.2)
  | Option.none =>
      if p.bindings.any (fun x => decide (b ≠ x.1) && b.isPrefixOf x.1) then
        ({ p with buf := b }, Command.none)
      else
        ({ p with buf := [] }, Command.none)

/-- The `Clipboard`: paths plus the cut/copy tag. -/
structure Clipboard where
  files : List Path
  cut : Bool
deriving DecidableEq

/-- Terminal output actions that the model records (only the cleanup
sequence of `run()` is observable). -/
inductive TermAction where
  | clearAll
  | moveTo (x y : Nat)
  | showCursor
  | flushOut
deriving DecidableEq

/-- Outcome tag of a fallible Rust routine: normal return, `?`-propagated
error, or panic. -/
inductive RustRes where
  | ok
  | err
  | panicked
deriving DecidableEq

/-- The `PanelManager` state, together with effect logs for filesystem
mutations (`renames`, `pasteJobs`), the bulk-rename temporary file
(`tempExists`), the count of `error!` log lines (`errors`) and the
terminal output trace (`out`). -/
structure MState where
  left : ManagedPanel DirPanel
  center : ManagedPanel DirPanel
  right : ManagedPanel PreviewPanel
  mode : Mode
  clipboard : Option Clipboard
  layout : Nat × Nat
  showHidden : Bool
  showLog : Bool
  redraw : Redraw
  previous : Path
  preConsolePath : Path
  trashDir : Path
  parser : ParserState
  renames : List (Path × Path)
  pasteJobs : List (List Path × Path × Bool)
  tempExists : Bool
  errors : Nat
  out : List TermAction
deriving DecidableEq

/-- `redraw_header`. -/
def redrawHeader (s : MState) : MState :=
  { s with redraw := { s.redraw with header := true } }

/-- `redraw_footer`. -/
def redrawFooter (s : MState) : MState :=
  { s with redraw := { s.redraw with footer := true } }

/-- `redraw_panels`. -/
def redrawPanels (s : MState) : MState :=
  { s with redraw := { s.redraw with
      left := true, center := true, right := true, header := true, footer := true } }

/-- `redraw_left`. -/
def redrawLeft (s : MState) : MState :=
  { s with redraw := { s.redraw with left := true, log := true } }

/-- `redraw_center`. -/
def redrawCenter (s : MState) : MState :=
  { s with redraw := { s.redraw with
      center := true, footer := true, header := true, log := true } }

/-- `redraw_right`. -/
def redrawRight (s : MState) : MState :=
  { s with redraw := { s.redraw with right := true, log := true } }

/-- `redraw_console`. -/
def redrawConsole (s : MState) : MState :=
  { s with redraw := { s.redraw with console := true } }

/-- `redraw_everything`. -/
def redrawEverything (s : MState) : MState :=
  { s with redraw := { s.redraw with
      header := true, footer := true, left := true, center := true,
      right := true, console := true } }

/-- `redraw_log`. -/
def redrawLog (s : MState) : MState :=
  { s with redraw := { s.redraw with log := true } }

/-- The directory-completion arm of `run()`: dispatch an incoming
`(panel, state)` to center if it accepts it, else to left, else drop it
with an error log (`manager.rs` lines 741-766). -/
def onDirCompletion (s : MState) (panel : DirPanel) (st : PanelState) : MState :=
  if s.center.checkUpdate st then
    let center := s.center.updatePanelD panel
    let right := s.right.newPanelDelayedP (selectedPath center.panel)
    redrawConsole (redrawRight (redrawCenter { s with center := center, right := right }))
  else if s.left.checkUpdate st then
    let left := s.left.updatePanelD panel
    let left := { left with panel := left.panel.selectPath s.center.panel.path }
    redrawConsole (redrawLeft { s with left := left })
  else
    { s with errors := s.errors + 1 }

/-- The preview-completion arm of `run()`: accept iff the right slot
accepts (`manager.rs` lines 768-780). -/
def onPrevCompletion (s : MState) (panel : PreviewPanel) (st : PanelState) : MState :=
  if s.right.checkUpdate st then
    redrawConsole (redrawRight { s with right := s.right.updatePanelP panel })
  else s

/-- `draw_footer`, restricted to its effect on the redraw flags: nothing
happens when the footer flag is clear; in `Search`, `Rename` and
`CreateItem` mode the subdraw returns early, before the flag is cleared;
otherwise the flag is cleared at the end (`manager.rs` lines 303-413). -/
def drawFooter (s : MState) : MState :=
  if !s.redraw.footer then s
  else
    match s.mode with
    | Mode.search _ => s
    | Mode.rename _ => s
    | Mode.createItem _ _ => s
    | _ => { s with redraw := { s.redraw with footer := false } }

/-- `draw_header`, flag effect only (`manager.rs` lines 269-300). -/
def drawHeader (s : MState) : MState :=
  if !s.redraw.header then s
  else { s with redraw := { s.redraw with header := false } }

/-- `draw_panels`, flag effect only: each panel flag that is set is
cleared (`manager.rs` lines 428-461). -/
def drawPanels (s : MState) : MState :=
  let s := if s.redraw.left then { s with redraw := { s.redraw with left := false } } else s
  let s := if s.redraw.center then { s with redraw := { s.redraw with center := false } } else s
  let s := if s.redraw.right then { s with redraw := { s.redraw with right := false } } else s
  s

/-- `draw_console`, flag effect only: the console flag is cleared whenever
it was set, drawing only happens in `Console` mode (`manager.rs` lines
463-475). -/
def drawConsole (s : MState) : MState :=
  if s.redraw.console then { s with redraw := { s.redraw with console := false } } else s

/-- `draw_log`, flag effect only: the flag is cleared only when it is set
and the log is shown (`manager.rs` lines 238-266). -/
def drawLog (s : MState) : MState :=
  if !s.redraw.log || !s.showLog then s
  else { s with redraw := { s.redraw with log := false } }

/-- `draw()`: a no-op when no flag is set, otherwise the subdraws run in
order footer, header, panels, console, log (`manager.rs` lines 415-426). -/
def draw (s : MState) : MState :=
  if !s.redraw.any then s
  else drawLog (drawConsole (drawPanels (drawHeader (drawFooter s))))

/-- Whether the mode takes the early-return path of `draw_footer`. -/
def Mode.isInput : Mode → Bool
  | Mode.search _ => true
  | Mode.rename _ => true
  | Mode.createItem _ _ => true
  | _ => false

/-- An empty directory panel used to build concrete states. -/
def emptyDir (p : Path) : DirPanel :=
  { path := p, elements := [], selected := Option.none,
    search := Option.none, hidden := false }

/-- A concrete managed directory slot at generation 0. -/
def mp0 : ManagedPanel DirPanel :=
  { panel := emptyDir [], state := ⟨[], 0⟩, frozen := false, reqs := [] }

/-- A concrete empty redraw flag set. -/
def rd0 : Redraw :=
  { left := false, center := false, right := false, console := false,
    log := false, header := false, footer := false }

/-- A concrete baseline manager state. -/
def s0 : MState :=
  { left := mp0, center := mp0,
    right := { panel := PreviewPanel.empty, state := ⟨[], 0⟩, frozen := false, reqs := [] },
    mode := Mode.normal, clipboard := Option.none, layout := (80, 24),
    showHidden := false, showLog := false, redraw := rd0,
    previous := [], preConsolePath := [], trashDir := ["tmp", "trash"],
    parser := { bindings := [], buf := [] },
    renames := [], pasteJobs := [], tempExists := false, errors := 0, out := [] }

/-- A concrete directory panel carried by a completion. -/
def dp0 : DirPanel :=
  { path := ["home"], elements := [⟨["home", "a"], false⟩],
    selected := Option.some 0, search := Option.none, hidden := false }

/-- A concrete state in Search mode with only the footer flag set. -/
def sFooterSearch : MState :=
  { s0 with mode := Mode.search "", redraw := { rd0 with footer := true } }

/-- Rust `char::to_ascii_lowercase`. -/
def asciiLower (c : Char) : Char :=
  if 'A' ≤ c ∧ c ≤ 'Z' then Char.ofNat (c.toNat + 32) else c

/-- Rust `str::trim_matches` with pattern newline, on a character list. -/
def trimNl (cs : List Char) : List Char :=
  ((cs.dropWhile (fun c => decide (c = '\n'))).reverse.dropWhile
    (fun c => decide (c = '\n'))).reverse

/-- Split a character list at newline characters (Rust `str::split`). -/
def splitNl : List Char → List (List Char)
  | [] => [[]]
  | c :: cs =>
      let rest := splitNl cs
      if c = '\n' then [] :: rest
      else (c :: rest.headD []) :: rest.tail

/-- One line of Rust `str::lines`: a trailing carriage return is
stripped. -/
def stripCr (l : List Char) : List Char :=
  if l.getLast? = Option.some '\r' then l.dropLast else l

/-- Rust `str::lines` (no splitting of an empty string; the input has
already been newline-trimmed in `bulkrename`). -/
def rustLines (cs : List Char) : List (List Char) :=
  if cs.isEmpty then [] else (splitNl cs).map stripCr

/-- Modelled from the spec: the manager's external collaborators (§1, §6)
— filesystem queries, the worker's directory cache, the opener result,
filesystem mutation results, the bulk-rename temp-file read, and the
directory console's key reactions — gathered as oracles. -/
structure Env where
  isDir : Path → Bool
  pathExists : Path → Bool
  cacheDir : Path → Option (List DirElem)
  openerOk : Bool
  getDest : Path → Option Path
  renameOk : Path → Path → Bool
  readTemp : Option (List Char)
  writeOk : Bool
  createOk : Path → Bool → Bool
  consoleDel : DirConsole → DirConsole × Option Path
  consoleTab : DirConsole → DirConsole × Option Path
  consoleBacktab : DirConsole → DirConsole × Option Path
  consoleInsert : Char → DirConsole → DirConsole × Option Path

/-- Rust `old_paths.iter().map(|p| p.file_name().unwrap())` in
`bulkrename`: `none` when some path has no file name, in which case the
Rust code panics. -/
def fileNamesOf : List Path → Option (List String)
  | [] => Option.some []
  | p :: ps =>
      match pathFileName p, fileNamesOf ps with
      | Option.some n, Option.some ns => Option.some (n :: ns)
      | _, _ => Option.none

/-- The destination paths `bulkrename` derives:
`old.with_file_name(new_name_i)` for the edited lines. -/
def newPathsOf (paths : List Path) (cs : List Char) : List Path :=
  (paths.zip (rustLines (trimNl cs))).map (fun q => withFileName q.1 (String.mk q.2))

/-- The rename loop of `bulkrename` (`manager.rs` lines 1113-1121): each
successful rename is performed and logged; a failing rename propagates
its error out of the routine at once. -/
def renameLoop (env : Env) (mgr : MState) : List (Path × Path) → MState × RustRes
  | [] => (mgr, RustRes.ok)
  | (o, n) :: rest =>
      if env.renameOk o n then
        renameLoop env { mgr with renames := mgr.renames ++ [(o, n)] } rest
      else (mgr, RustRes.err)

/-- The epilogue of `bulkrename` (`manager.rs` lines 1125-1127): delete
the temporary file — an error return if it is already gone — then
unfreeze the center panel and redraw everything. -/
def bulkFinish (mgr : MState) : MState × RustRes :=
  if !mgr.tempExists then (mgr, RustRes.err)
  else
    let mgr := { mgr with tempExists := false }
    let mgr := { mgr with center := mgr.center.unfreeze }
    (redrawEverything mgr, RustRes.ok)

/-- `bulkrename` (`manager.rs` lines 1073-1130): write the selected file
names to a temporary file (panicking if a path has no file name), freeze
the center panel, run the opener; on opener failure delete the temporary
file and fall through to the epilogue, whose second deletion of the same
file fails; otherwise re-read the file, abort on a line-count mismatch or
a colliding destination, else rename pairwise; the epilogue deletes the
temporary file, unfreezes and issues a full redraw. -/
def bulkrename (env : Env) (mgr : MState) (oldPaths : List Path) : MState × RustRes :=
  match fileNamesOf oldPaths with
  | Option.none => (mgr, RustRes.panicked)
  | Option.some _ =>
      if !env.writeOk then (mgr, RustRes.err)
      else
        let mgr := { mgr with tempExists := true }
        let mgr := { mgr with center := mgr.center.freeze }
        if !env.openerOk then
          let mgr := { mgr with errors := mgr.errors + 1 }
          let mgr := { mgr with tempExists := false }
          bulkFinish mgr
        else
          match env.readTemp with
          | Option.none => (mgr, RustRes.err)
          | Option.some contents =>
              let newFileNames := rustLines (trimNl contents)
              if newFileNames.length ≠ oldPaths.length then
                bulkFinish { mgr with errors := mgr.errors + 1 }
              else
                let newPaths := newPathsOf oldPaths contents
                if 0 < (newPaths.filter env.pathExists).length then
                  bulkFinish { mgr with errors := mgr.errors + 1 }
                else
                  match renameLoop env mgr (oldPaths.zip newPaths) with
                  | (mgr, RustRes.err) => (mgr, RustRes.err)
                  | (mgr, _) => bulkFinish mgr

/-- Cleanup observed at a clean exit of `bulkrename`: the temporary file
is gone, the center panel is unfrozen, a full redraw is pending and the
routine returned normally. -/
def bulkCleanupOk (r : MState × RustRes) : Prop :=
  r.1.tempExists = false ∧ r.1.center.frozen = false ∧
  r.1.redraw.left = true ∧ r.1.redraw.center = true ∧ r.1.redraw.right = true ∧
  r.1.redraw.header = true ∧ r.1.redraw.footer = true ∧ r.1.redraw.console = true ∧
  r.2 = RustRes.ok

/-- A concrete environment whose opener fails. -/
def envOpenFail : Env :=
  { isDir := fun _ => false, pathExists := fun _ => false,
    cacheDir := fun _ => Option.none, openerOk := false,
    getDest := fun p => Option.some p, renameOk := fun _ _ => true,
    readTemp := Option.none, writeOk := true, createOk := fun _ _ => true,
    consoleDel := fun c => (c, Option.none), consoleTab := fun c => (c, Option.none),
    consoleBacktab := fun c => (c, Option.none),
    consoleInsert := fun _ c => (c, Option.none) }

/-- A concrete benign environment. -/
def envOk : Env :=
  { envOpenFail with
    openerOk := true,
    readTemp := Option.some ['x', '\n', 'y'] }

/-- Rust `String::pop`: drop the last character. -/
def strPop (s : String) : String := String.mk s.toList.dropLast

/-- Rust `usize::MAX`. -/
def usizeMax : Nat := 2 ^ 64 - 1

/-- Modelled from the spec: the content height of the Miller layout
derived from the terminal size (§3). -/
def layoutHeight (l : Nat × Nat) : Nat := l.2

/-- Modelled from the spec: `DirPanel::up` moves the selection up by
`step` (saturating), reporting whether anything changed; a no-op at index
0 or with no selection (§8 boundary behavior). -/
def DirPanel.up (p : DirPanel) (step : Nat) : DirPanel × Bool :=
  match p.selected with
  | Option.none => (p, false)
  | Option.some i =>
      if i = 0 then (p, false)
      else ({ p with selected := Option.some (i - step) }, true)

/-- Modelled from the spec: `DirPanel::down` moves the selection down by
`step` (clamped to the end); a no-op at the last index or with no
selection (§8 boundary behavior). -/
def DirPanel.down (p : DirPanel) (step : Nat) : DirPanel × Bool :=
  match p.selected with
  | Option.none => (p, false)
  | Option.some i =>
      if p.elements.length ≤ i + 1 then (p, false)
      else ({ p with selected := Option.some (min (i + step) (p.elements.length - 1)) }, true)

/-- Mark the element at the given index. -/
def setMarkedAt : List DirElem → Nat → List DirElem
  | [], _ => []
  | e :: es, 0 => { e with marked := true } :: es
  | e :: es, n + 1 => e :: setMarkedAt es n

/-- Modelled from the spec: `DirPanel::mark_selected_item` marks the
current selection; a no-op without one (glossary: marked-or-selected). -/
def markSelectedItem (p : DirPanel) : DirPanel :=
  match p.selected with
  | Option.some i => { p with elements := setMarkedAt p.elements i }
  | Option.none => p

/-- `item.unmark()` applied to every element of a listing. -/
def unmarkElems (l : List DirElem) : List DirElem :=
  l.map (fun e => { e with marked := false })

/-- Substring containment on character lists. -/
def containsSub (needle hay : List Char) : Bool :=
  hay.tails.any (fun t => needle.isPrefixOf t)

/-- Modelled from the spec: whether an entry matches the search string —
case-insensitive substring match on its file name (§4.4 Search). -/
def nameMatches (input : String) (e : DirElem) : Bool :=
  containsSub input.toList (((pathFileName e.path).getD "").toList.map asciiLower)

/-- Modelled from the spec: `DirPanel::update_search` stores the search
string and marks the matching entries live (§4.4 Search). -/
def DirPanel.updateSearch (p : DirPanel) (input : String) : DirPanel :=
  { p with search := Option.some input,
           elements := p.elements.map
             (fun e => if nameMatches input e then { e with marked := true } else e) }

/-- Modelled from the spec: `DirPanel::finish_search` finalizes the marks
of the matching entries and drops the live search string (§4.4 Search). -/
def DirPanel.finishSearch (p : DirPanel) (input : String) : DirPanel :=
  { p with search := Option.none,
           elements := p.elements.map
             (fun e => if nameMatches input e then { e with marked := true } else e) }

/-- Modelled from the spec: `DirPanel::clear_search` drops the search
string (§4.4 Search, Esc). -/
def DirPanel.clearSearch (p : DirPanel) : DirPanel :=
  { p with search := Option.none }

/-- Modelled from the spec: `DirPanel::set_hidden` stores the hidden-files
filter flag (§4.4 ToggleHidden). -/
def DirPanel.setHidden (p : DirPanel) (b : Bool) : DirPanel :=
  { p with hidden := b }

/-- Indices of the marked elements of a panel. -/
def markedIdx (p : DirPanel) : List Nat :=
  (List.range p.elements.length).filter
    (fun i => ((p.elements.get? i).map (fun e => e.marked)).getD false)

/-- Modelled from the spec: `DirPanel::select_next_marked` moves the
selection to the next marked entry after the current one, wrapping
around; a no-op when nothing is marked (§4.4 Next). -/
def DirPanel.selectNextMarked (p : DirPanel) : DirPanel :=
  match markedIdx p with
  | [] => p
  | m :: ms =>
      let cur := p.selected.getD 0
      match (m :: ms).find? (fun i => decide (cur < i)) with
      | Option.some i => { p with selected := Option.some i }
      | Option.none => { p with selected := Option.some m }

/-- Modelled from the spec: `DirPanel::select_prev_marked`, the mirror of
`select_next_marked` (§4.4 Previous). -/
def DirPanel.selectPrevMarked (p : DirPanel) : DirPanel :=
  match (markedIdx p).reverse with
  | [] => p
  | m :: ms =>
      let cur := p.selected.getD 0
      match (m :: ms).find? (fun i => decide (i < cur)) with
      | Option.some i => { p with selected := Option.some i }
      | Option.none => { p with selected := Option.some m }

/-- `marked_items` (`manager.rs` lines 671-679): the marked elements of
left, center, and a directory preview on the right, in that order. -/
def markedItems (s : MState) : List DirElem :=
  (s.left.panel.elements.filter (fun e => e.marked)) ++
  (s.center.panel.elements.filter (fun e => e.marked)) ++
  (match s.right.panel with
   | PreviewPanel.dir p => p.elements.filter (fun e => e.marked)
   | _ => [])

/-- The paths of the marked elements across the three panels. -/
def markedPaths (s : MState) : List Path :=
  (markedItems s).map (fun e => e.path)

/-- `unmark_left_right` (`manager.rs` lines 691-701). -/
def unmarkLeftRight (s : MState) : MState :=
  let lp := { s.left.panel with elements := unmarkElems s.left.panel.elements }
  let s := { s with left := { s.left with panel := lp } }
  let s :=
    match s.right.panel with
    | PreviewPanel.dir p =>
        let rp := PreviewPanel.dir { p with elements := unmarkElems p.elements }
        { s with right := { s.right with panel := rp } }
    | _ => s
  redrawPanels s

/-- `unmark_all_items` (`manager.rs` lines 682-688). -/
def unmarkAllItems (s : MState) : MState :=
  let cp := { s.center.panel with elements := unmarkElems s.center.panel.elements }
  let s := { s with center := { s.center with panel := cp } }
  unmarkLeftRight s

/-- `marked_or_selected` (`manager.rs` lines 709-726): the marked paths,
or — when none are marked — the center selection, marked as a side
effect. -/
def markedOrSelected (s : MState) : MState × List Path :=
  let files := markedPaths s
  if files.isEmpty then
    let s := { s with center := { s.center with panel := markSelectedItem s.center.panel } }
    match selectedPath s.center.panel with
    | Option.some p => (s, [p])
    | Option.none => (s, [])
  else (s, files)

/-- Whether some element with the given path is marked in the panel. -/
def elemMarked (p : DirPanel) (path : Path) : Bool :=
  p.elements.any (fun e => decide (e.path = path) && e.marked)

/-- No element marked in the left panel nor in a directory preview on the
right. -/
def leftRightUnmarked (s : MState) : Bool :=
  s.left.panel.elements.all (fun e => !e.marked) &&
  (match s.right.panel with
   | PreviewPanel.dir p => p.elements.all (fun e => !e.marked)
   | _ => true)

/-- No element marked in any of the three panels. -/
def allUnmarked (s : MState) : Bool :=
  s.center.panel.elements.all (fun e => !e.marked) && leftRightUnmarked s

/-- `jump` (`manager.rs` lines 635-650): a no-op on the current path or a
nonexistent target; otherwise reload left (selecting the target), center,
and a delayed preview. -/
def jump (env : Env) (s : MState) (path : Path) : MState :=
  if path = s.center.panel.path then s
  else if env.pathExists path then
    let s := { s with previous := s.center.panel.path }
    let left := s.left.newPanelInstantD env.cacheDir (pathParent path)
    let left := { left with panel := left.panel.selectPath path }
    let center := s.center.newPanelInstantD env.cacheDir (Option.some path)
    let right := s.right.newPanelDelayedP (selectedPath center.panel)
    redrawPanels { s with left := left, center := center, right := right }
  else s

/-- `move_up` (`manager.rs` lines 547-556). -/
def moveUp (s : MState) (step : Nat) : MState :=
  let r := s.center.panel.up step
  let s := { s with center := { s.center with panel := r.1 } }
  if r.2 then
    let s := { s with right := s.right.newPanelDelayedP (selectedPath s.center.panel) }
    redrawRight (redrawCenter s)
  else s

/-- `move_down` (`manager.rs` lines 558-567). -/
def moveDown (s : MState) (step : Nat) : MState :=
  let r := s.center.panel.down step
  let s := { s with center := { s.center with panel := r.1 } }
  if r.2 then
    let s := { s with right := s.right.newPanelDelayedP (selectedPath s.center.panel) }
    redrawRight (redrawCenter s)
  else s

/-- `move_right` (`manager.rs` lines 570-607): on a directory, shift the
panels left; on a file, freeze the center around the opener call and
redraw everything; in both cases clear the marks in left/right. A no-op
without a selection. -/
def moveRight (env : Env) (s : MState) : MState :=
  match selectedPath s.center.panel with
  | Option.none => s
  | Option.some selected =>
      let s :=
        if env.isDir selected then
          let s := { s with previous := s.center.panel.path }
          let left := s.left.updatePanelD s.center.panel
          let center := s.center.newPanelInstantD env.cacheDir s.right.panel.maybePath
          let right := s.right.newPanelDelayedP (selectedPath center.panel)
          redrawPanels { s with left := left, center := center, right := right }
        else
          let s := { s with center := s.center.freeze }
          let s := if env.openerOk then s else { s with errors := s.errors + 1 }
          let s := { s with center := s.center.unfreeze }
          redrawEverything s
      unmarkLeftRight s

/-- `move_left` (`manager.rs` lines 610-633): shift the panels right,
reload the new left from the parent and re-select; clear marks in
left/right; a no-op when the left panel has no selection. -/
def moveLeft (env : Env) (s : MState) : MState :=
  if (selectedPath s.left.panel).isNone then s
  else
    let s := { s with previous := s.center.panel.path }
    let right := s.right.updatePanelP (PreviewPanel.dir s.center.panel)
    let center := s.center.updatePanelD s.left.panel
    let left := s.left.newPanelInstantD env.cacheDir (pathParent center.panel.path)
    let left := { left with panel := left.panel.selectPath center.panel.path }
    let s := { s with left := left, center := center, right := right }
    redrawPanels (unmarkLeftRight s)

/-- `move_cursor` (`manager.rs` lines 652-668). -/
def moveCursor (env : Env) (s : MState) : Move → MState
  | Move.up => moveUp s 1
  | Move.down => moveDown s 1
  | Move.left => moveLeft env s
  | Move.right => moveRight env s
  | Move.top => moveUp s usizeMax
  | Move.bottom => moveDown s usizeMax
  | Move.halfPageForward => moveDown s (layoutHeight s.layout / 2)
  | Move.halfPageBackward => moveUp s (layoutHeight s.layout / 2)
  | Move.pageForward => moveDown s (layoutHeight s.layout)
  | Move.pageBackward => moveUp s (layoutHeight s.layout)
  | Move.jumpTo p => jump env s p
  | Move.jumpPrevious => jump env s s.previous

/-- `toggle_hidden` (`manager.rs` lines 511-524). -/
def toggleHidden (s : MState) : MState :=
  let sh := !s.showHidden
  let s := { s with showHidden := sh }
  let s := { s with left := { s.left with panel := s.left.panel.setHidden sh } }
  let s := { s with center := { s.center with panel := s.center.panel.setHidden sh } }
  let s :=
    match s.right.panel with
    | PreviewPanel.dir p =>
        { s with right := { s.right with panel := PreviewPanel.dir (p.setHidden sh) } }
    | _ => s
  let lp := s.left.panel.selectPath s.center.panel.path
  let s := { s with left := { s.left with panel := lp } }
  redrawEverything s

/-- `toggle_log` (`manager.rs` lines 526-534). -/
def toggleLog (s : MState) : MState :=
  let s := { s with showLog := !s.showLog }
  if s.showLog then redrawLog s else redrawEverything s

/-- Modelled from the spec: `DirConsole::from_panel` builds a fresh
directory-completion console for the center panel (§4.4 Console). -/
def consoleFromPanel (_p : DirPanel) : DirConsole := { query := [] }

/-- The mode-independent part of the escape pre-block of `handle_event`
(`manager.rs` lines 816-821): reset to Normal mode, clear the parser and
the center search, redraw, and unmark everything. -/
def escPreTail (s : MState) : MState :=
  let s := { s with mode := Mode.normal }
  let s := { s with parser := parserClear s.parser }
  let s := { s with center := { s.center with panel := s.center.panel.clearSearch } }
  let s := redrawFooter (redrawPanels s)
  unmarkAllItems s

/-- The escape pre-block of `handle_event` (`manager.rs` lines 812-822):
jump back to the pre-console path when in Console mode, then reset. -/
def escPre (env : Env) (s : MState) : MState :=
  let s := match s.mode with
    | Mode.console _ => jump env s s.preConsolePath
    | _ => s
  escPreTail s

/-- The `Mode::Console` arm of `handle_event` (`manager.rs` lines
951-981). -/
def handleConsole (env : Env) (s : MState) (c : DirConsole) (k : KeyEvent) :
    MState × RustRes × Bool :=
  match k.code with
  | KeyCode.backspace =>
      let r := env.consoleDel c
      let s := { s with mode := Mode.console r.1 }
      let s := match r.2 with
        | Option.some p => jump env s p
        | Option.none => s
      (redrawConsole s, RustRes.ok, false)
  | KeyCode.enter => (redrawPanels { s with mode := Mode.normal }, RustRes.ok, false)
  | KeyCode.tab =>
      let r := env.consoleTab c
      let s := { s with mode := Mode.console r.1 }
      let s := match r.2 with
        | Option.some p => jump env s p
        | Option.none => s
      (redrawConsole s, RustRes.ok, false)
  | KeyCode.backtab =>
      let r := env.consoleBacktab c
      let s := { s with mode := Mode.console r.1 }
      let s := match r.2 with
        | Option.some p => jump env s p
        | Option.none => s
      (redrawConsole s, RustRes.ok, false)
  | KeyCode.char ch =>
      let r := env.consoleInsert ch c
      let s := { s with mode := Mode.console r.1 }
      let s := match r.2 with
        | Option.some p => jump env s p
        | Option.none => s
      (redrawConsole s, RustRes.ok, false)
  | _ => (s, RustRes.ok, false)

/-- The `Mode::CreateItem` arm of `handle_event` (`manager.rs` lines
982-1018): edit the input; Enter creates the item (logging any error) and
returns to Normal mode. -/
def handleCreate (env : Env) (s : MState) (input : String) (isDir : Bool) (k : KeyEvent) :
    MState × RustRes × Bool :=
  match k.code with
  | KeyCode.backspace =>
      (redrawFooter { s with mode := Mode.createItem (strPop input) isDir }, RustRes.ok, false)
  | KeyCode.enter =>
      let target := s.center.panel.path ++ [input.trim]
      let s := if env.createOk target isDir then s else { s with errors := s.errors + 1 }
      (redrawPanels { s with mode := Mode.normal }, RustRes.ok, false)
  | KeyCode.tab => (redrawFooter s, RustRes.ok, false)
  | KeyCode.char ch =>
      (redrawFooter { s with mode := Mode.createItem (input.push ch) isDir }, RustRes.ok, false)
  | _ => (s, RustRes.ok, false)

/-- The `Mode::Search` arm of `handle_event` (`manager.rs` lines
1020-1038): Enter finalizes the search, selects the next marked match,
issues a delayed preview load and returns to Normal mode; any other key
edits the input (characters are ASCII-lowercased, Backspace pops) and
pushes the current input into the center panel's search. -/
def handleSearch (_env : Env) (s : MState) (input : String) (k : KeyEvent) :
    MState × RustRes × Bool :=
  match k.code with
  | KeyCode.enter =>
      let center := { s.center with panel := (s.center.panel.finishSearch input).selectNextMarked }
      let right := s.right.newPanelDelayedP (selectedPath center.panel)
      let s := { s with center := center, right := right, mode := Mode.normal }
      (redrawRight (redrawCenter s), RustRes.ok, false)
  | c =>
      let inp :=
        match c with
        | KeyCode.char ch => input.push (asciiLower ch)
        | KeyCode.backspace => strPop input
        | _ => input
      let s := { s with mode := Mode.search inp,
                        center := { s.center with panel := s.center.panel.updateSearch inp } }
      (redrawCenter s, RustRes.ok, false)

/-- The `Mode::Rename` arm of `handle_event` (`manager.rs` lines
1040-1062): Enter renames the selection to `parent/input` (logging
errors), reloads center and right, and returns to Normal mode; other keys
edit the input. -/
def handleRename (env : Env) (s : MState) (input : String) (k : KeyEvent) :
    MState × RustRes × Bool :=
  match k.code with
  | KeyCode.enter =>
      let s := match selectedPath s.center.panel with
        | Option.some fromP =>
            let toP := ((pathParent fromP).map (fun pp => pp ++ [input])).getD []
            if env.renameOk fromP toP then { s with renames := s.renames ++ [(fromP, toP)] }
            else { s with errors := s.errors + 1 }
        | Option.none => s
      let s := { s with mode := Mode.normal, center := s.center.reloadD,
                        right := s.right.reloadP }
      (redrawPanels s, RustRes.ok, false)
  | c =>
      let inp :=
        match c with
        | KeyCode.char ch => input.push ch
        | KeyCode.backspace => strPop input
        | _ => input
      (redrawCenter { s with mode := Mode.rename inp }, RustRes.ok, false)

/-- The body of the `Command::Delete` loop (`manager.rs` lines 907-914):
`get_destination(..).unwrap()` panics on an error result; otherwise the
rename into the trash is attempted and failures are logged. -/
def deleteLoop (env : Env) (s : MState) : List Path → Option MState
  | [] => Option.some s
  | f :: rest =>
      match env.getDest f with
      | Option.none => Option.none
      | Option.some dest =>
          let s :=
            if env.renameOk f dest then { s with renames := s.renames ++ [(f, dest)] }
            else { s with errors := s.errors + 1 }
          deleteLoop env s rest

/-- The `Command::Delete` arm (`manager.rs` lines 902-918). -/
def deleteCmd (env : Env) (s : MState) : MState × RustRes × Bool :=
  let r := markedOrSelected s
  let s := unmarkAllItems r.1
  match deleteLoop env s r.2 with
  | Option.none => (s, RustRes.panicked, false)
  | Option.some s =>
      let s := { s with left := s.left.reloadD, center := s.center.reloadD,
                        right := s.right.reloadP }
      (s, RustRes.ok, false)

/-- The `Command::Paste` arm (`manager.rs` lines 919-946): unmark, take
the clipboard, hand its content to a blocking task, reload all panels. -/
def pasteCmd (s : MState) (_overwrite : Bool) : MState × RustRes × Bool :=
  let s := unmarkAllItems s
  let current := s.center.panel.path
  let clip := s.clipboard
  let s := { s with clipboard := Option.none }
  let s := match clip with
    | Option.some c => { s with pasteJobs := s.pasteJobs ++ [(c.files, current, c.cut)] }
    | Option.none => s
  let s := { s with left := s.left.reloadD, center := s.center.reloadD,
                    right := s.right.reloadP }
  (redrawPanels s, RustRes.ok, false)

/-- The `Command::Rename` arm (`manager.rs` lines 845-858): Rename mode
for a single selection, the bulk-rename flow otherwise. -/
def renameCmd (env : Env) (s : MState) : MState × RustRes × Bool :=
  let r := markedOrSelected s
  let s := r.1
  if r.2.length = 1 then
    match r.2.head?.bind pathFileName with
    | Option.some name => (redrawFooter { s with mode := Mode.rename name }, RustRes.ok, false)
    | Option.none => (s, RustRes.ok, false)
  else
    let b := bulkrename env s r.2
    (b.1, b.2, false)

/-- The `Mode::Normal` arm of `handle_event` (`manager.rs` lines
824-949): feed the key to the parser and execute the command. -/
def handleNormal (env : Env) (s : MState) (k : KeyEvent) : MState × RustRes × Bool :=
  let pr := parserAdd s.parser k
  let s := { s with parser := pr.1 }
  match pr.2 with
  | Command.move d => (moveCursor env s d, RustRes.ok, false)
  | Command.viewTrash => (jump env s s.trashDir, RustRes.ok, false)
  | Command.toggleHidden => (toggleHidden s, RustRes.ok, false)
  | Command.toggleLog => (toggleLog s, RustRes.ok, false)
  | Command.cd =>
      let s := { s with preConsolePath := s.center.panel.path }
      let s := { s with mode := Mode.console (consoleFromPanel s.center.panel) }
      (redrawConsole s, RustRes.ok, false)
  | Command.search => (redrawFooter { s with mode := Mode.search "" }, RustRes.ok, false)
  | Command.rename => renameCmd env s
  | Command.next =>
      let center := { s.center with panel := s.center.panel.selectNextMarked }
      let right := s.right.newPanelDelayedP (selectedPath center.panel)
      (redrawRight (redrawCenter { s with center := center, right := right }),
        RustRes.ok, false)
  | Command.previous =>
      let center := { s.center with panel := s.center.panel.selectPrevMarked }
      let right := s.right.newPanelDelayedP (selectedPath center.panel)
      (redrawRight (redrawCenter { s with center := center, right := right }),
        RustRes.ok, false)
  | Command.mkdir => (redrawFooter { s with mode := Mode.createItem "" true }, RustRes.ok, false)
  | Command.touch => (redrawFooter { s with mode := Mode.createItem "" false }, RustRes.ok, false)
  | Command.mark =>
      let s := { s with center := { s.center with panel := markSelectedItem s.center.panel } }
      (moveCursor env s Move.down, RustRes.ok, false)
  | Command.cut =>
      let r := markedOrSelected s
      ({ r.1 with clipboard := Option.some { files := r.2, cut := true } }, RustRes.ok, false)
  | Command.copy =>
      let r := markedOrSelected s
      ({ r.1 with clipboard := Option.some { files := r.2, cut := false } }, RustRes.ok, false)
  | Command.delete => deleteCmd env s
  | Command.paste overwrite => pasteCmd s overwrite
  | Command.quit => (s, RustRes.ok, true)
  | Command.none => (redrawFooter s, RustRes.ok, false)

/-- `handle_event` (`manager.rs` lines 809-1070); the boolean result is
the Rust `Ok(true)` shutdown signal, `RustRes` records error propagation
and panics. -/
def handleEvent (env : Env) (s : MState) (ev : Event) : MState × RustRes × Bool :=
  match ev with
  | Event.key k =>
      let s := if k.code = KeyCode.esc then escPre env s else s
      match s.mode with
      | Mode.normal => handleNormal env s k
      | Mode.console c => handleConsole env s c k
      | Mode.createItem input isDir => handleCreate env s input isDir k
      | Mode.search input => handleSearch env s input k
      | Mode.rename input => handleRename env s input k
  | Event.resize w h => (redrawEverything { s with layout := (w, h) }, RustRes.ok, false)
  | Event.other => (s, RustRes.ok, false)

/-- One multiplexer input of `run()` (§4.6): a logger signal, a message
or closure of one of the two completion channels, or a terminal event or
closure of the event stream. -/
inductive LoopInput where
  | logUpd
  | dirMsg (msg : Option (DirPanel × PanelState))
  | prevMsg (msg : Option (PreviewPanel × PanelState))
  | term (ev : Option Event)
deriving DecidableEq

/-- Result of one `run()` iteration. -/
inductive StepOut where
  | cont (s : MState)
  | exit (s : MState)
  | fail
  | died
deriving DecidableEq

/-- One iteration of the `tokio::select!` in `run()` (`manager.rs` lines
733-796): a `None` from any receiver breaks the loop; terminal events go
through `handle_event`, whose `Ok(true)` also breaks; errors and panics
abort the loop without the cleanup. -/
def runStep (env : Env) (s : MState) : LoopInput → StepOut
  | LoopInput.logUpd => StepOut.cont (redrawLog s)
  | LoopInput.dirMsg Option.none => StepOut.exit s
  | LoopInput.dirMsg (Option.some m) => StepOut.cont (onDirCompletion s m.1 m.2)
  | LoopInput.prevMsg Option.none => StepOut.exit s
  | LoopInput.prevMsg (Option.some m) => StepOut.cont (onPrevCompletion s m.1 m.2)
  | LoopInput.term Option.none => StepOut.exit s
  | LoopInput.term (Option.some ev) =>
      match handleEvent env s ev with
      | (s1, RustRes.ok, true) => StepOut.exit s1
      | (s1, RustRes.ok, false) => StepOut.cont s1
      | (_, RustRes.err, _) => StepOut.fail
      | (_, RustRes.panicked, _) => StepOut.died

/-- The `run()` cleanup sequence: clear all, cursor to home, cursor show,
flush (`manager.rs` lines 798-802). -/
def restoreSeq : List TermAction :=
  [TermAction.clearAll, TermAction.moveTo 0 0, TermAction.showCursor, TermAction.flushOut]

/-- Result of `run()` on a finite input trace. -/
inductive RunRes where
  | finished (acts : List TermAction) (p : Path)
  | failed
  | died
  | pending (s : MState)
deriving DecidableEq

/-- The event loop of `run()` (`manager.rs` lines 728-804) over a finite
input trace: after every non-breaking iteration `draw()` runs; a break
emits the restore sequence and returns the center panel's path. -/
def runLoop (env : Env) (s : MState) : List LoopInput → RunRes
  | [] => RunRes.pending s
  | i :: rest =>
      match runStep env s i with
      | StepOut.exit s1 => RunRes.finished (s1.out ++ restoreSeq) s1.center.panel.path
      | StepOut.cont s1 => runLoop env (draw s1) rest
      | StepOut.fail => RunRes.failed
      | StepOut.died => RunRes.died

/-- No key binding of the parser starts with the escape key (the spec's
binding table has no Esc binding, §4.4). -/
def escFree (bs : List (List KeyCode × Command)) : Bool :=
  bs.all (fun b => decide (b.1.head? ≠ Option.some KeyCode.esc))

/-- A concrete environment whose `get_destination` errors. -/
def envDestErr : Env := { envOk with getDest := fun _ => Option.none }

/-- A concrete state with one selectable center entry and a binding of
`d` to Delete. -/
def sSel : MState :=
  { s0 with
    center := { mp0 with panel :=
      { path := ["d"], elements := [{ path := ["d", "a"], marked := false }],
        selected := Option.some 0, search := Option.none, hidden := false } },
    parser := { bindings := [([KeyCode.char 'd'], Command.delete)], buf := [] } }

/-- A concrete state whose left panel holds one marked entry and whose
center panel has no selection. -/
def sMarkedLeft : MState :=
  { s0 with left := { mp0 with panel :=
      { path := [], elements := [{ path := ["a"], marked := true }],
        selected := Option.none, search := Option.none, hidden := false } } }

/-- A concrete state with a marked center entry. -/
def sMarkedCenter : MState :=
  { s0 with center := { mp0 with panel :=
      { path := ["d"], elements := [{ path := ["d", "a"], marked := true }],
        selected := Option.some 0, search := Option.none, hidden := false } } }

/-- C1: a directory completion is applied to the center panel iff center's
`check_update` accepts it, otherwise to the left panel iff left accepts
it, otherwise it is dropped with only an error logged; a preview
completion is applied to the right panel iff right accepts it; no
completion is applied to a panel whose `check_update` returned false. -/
theorem c1_completion_routing (s : MState) (p : DirPanel) (pp : PreviewPanel)
    (st : PanelState) :
    (s.center.checkUpdate st = true →
      (onDirCompletion s p st).center = s.center.updatePanelD p ∧
      (onDirCompletion s p st).left = s.left) ∧
    (s.center.checkUpdate st = false →
      (onDirCompletion s p st).center = s.center) ∧
    (s.center.checkUpdate st = false → s.left.checkUpdate st = true →
      (onDirCompletion s p st).left =
        { s.left.updatePanelD p with
            panel := (s.left.updatePanelD p).panel.selectPath s.center.panel.path }) ∧
    (s.center.checkUpdate st = false → s.left.checkUpdate st = false →
      onDirCompletion s p st = { s with errors := s.errors + 1 }) ∧
    (s.right.checkUpdate st = true →
      (onPrevCompletion s pp st).right = s.right.updatePanelP pp) ∧
    (s.right.checkUpdate st = false → onPrevCompletion s pp st = s) := by
  refine ⟨?_, ?_, ?_, ?_, ?_, ?_⟩
  · intro h
    simp [onDirCompletion, h, redrawCenter, redrawRight, redrawConsole]
  · intro h
    by_cases hl : s.left.checkUpdate st = true
    · simp [onDirCompletion, h, hl, redrawLeft, redrawConsole]
    · simp [onDirCompletion, h, hl]
  · intro h hl
    simp [onDirCompletion, h, hl, redrawLeft, redrawConsole]
  · intro h hl
    simp [onDirCompletion, h, hl]
  · intro h
    simp [onPrevCompletion, h, redrawRight, redrawConsole]
  · intro h
    simp [onPrevCompletion, h]

/-- Witness for `c1_completion_routing`: at generation 0 with a matching
state the center slot accepts and is updated; a stale preview completion
leaves the manager unchanged. -/
theorem c1_completion_routing_witness :
    (onDirCompletion s0 dp0 ⟨[], 0⟩).center = s0.center.updatePanelD dp0 ∧
    onPrevCompletion s0 PreviewPanel.empty ⟨["x"], 5⟩ = s0 := by
  refine ⟨((c1_completion_routing s0 dp0 PreviewPanel.empty ⟨[], 0⟩).1 (by decide)).1, ?_⟩
  exact (c1_completion_routing s0 dp0 PreviewPanel.empty ⟨["x"], 5⟩).2.2.2.2.2 (by decide)

/-- `draw_footer` as a record update: the footer flag survives exactly
when it was set and the mode takes the early-return path. -/
theorem drawFooter_eq (s : MState) :
    drawFooter s =
      { s with redraw := { s.redraw with footer := s.redraw.footer && s.mode.isInput } } := by
  rcases s with ⟨lft, ctr, rgt, mo, cb, ly, shh, shl, ⟨l, c, r, co, lg, hh, f⟩,
    prev, pcp, td, pr, rn, pj, te, er, ou⟩
  cases mo <;> cases f <;> rfl

/-- `draw_header` as a record update. -/
theorem drawHeader_eq (s : MState) :
    drawHeader s = { s with redraw := { s.redraw with header := false } } := by
  rcases s with ⟨lft, ctr, rgt, mo, cb, ly, shh, shl, ⟨l, c, r, co, lg, hh, f⟩,
    prev, pcp, td, pr, rn, pj, te, er, ou⟩
  cases hh <;> rfl

/-- `draw_panels` as a record update. -/
theorem drawPanels_eq (s : MState) :
    drawPanels s =
      { s with redraw := { s.redraw with left := false, center := false, right := false } } := by
  rcases s with ⟨lft, ctr, rgt, mo, cb, ly, shh, shl, ⟨l, c, r, co, lg, hh, f⟩,
    prev, pcp, td, pr, rn, pj, te, er, ou⟩
  cases l <;> cases c <;> cases r <;> rfl

/-- `draw_console` as a record update. -/
theorem drawConsole_eq (s : MState) :
    drawConsole s = { s with redraw := { s.redraw with console := false } } := by
  rcases s with ⟨lft, ctr, rgt, mo, cb, ly, shh, shl, ⟨l, c, r, co, lg, hh, f⟩,
    prev, pcp, td, pr, rn, pj, te, er, ou⟩
  cases co <;> rfl

/-- `draw_log` as a record update: the log flag survives unless the log
region is shown. -/
theorem drawLog_eq (s : MState) :
    drawLog s =
      { s with redraw := { s.redraw with log := s.redraw.log && !s.showLog } } := by
  rcases s with ⟨lft, ctr, rgt, mo, cb, ly, shh, shl, ⟨l, c, r, co, lg, hh, f⟩,
    prev, pcp, td, pr, rn, pj, te, er, ou⟩
  cases lg <;> cases shl <;> rfl

/-- `draw()` in closed form. -/
theorem draw_eq (s : MState) :
    draw s =
      if !s.redraw.any then s
      else
        { s with redraw :=
            { left := false, center := false, right := false, console := false,
              log := s.redraw.log && !s.showLog, header := false,
              footer := s.redraw.footer && s.mode.isInput } } := by
  unfold draw
  split
  · rfl
  · rw [drawFooter_eq, drawHeader_eq, drawPanels_eq, drawConsole_eq, drawLog_eq]

/-- C2 counterexample: `draw()` run in Search mode with the footer flag
set leaves the footer flag set afterwards, so the flag of a handled
region is not always cleared. -/
theorem c2_footer_not_cleared :
    sFooterSearch.redraw.footer = true ∧ sFooterSearch.mode = Mode.search "" ∧
    (draw sFooterSearch).redraw.footer = true := by
  exact ⟨rfl, rfl, rfl⟩

/-- C2 as amended: after `draw()` the header, panel and console flags are
always clear, the log flag is clear exactly when the log is shown, and
the footer flag is cleared except in the Search, Rename and CreateItem
modes, whose footer subdraw returns before clearing its flag; the pass is
a no-op when no flag is set. -/
theorem c2_draw_flag_discipline (s : MState) :
    (draw s).redraw.footer = (s.redraw.footer && s.mode.isInput) ∧
    (draw s).redraw.header = false ∧
    (draw s).redraw.left = false ∧
    (draw s).redraw.center = false ∧
    (draw s).redraw.right = false ∧
    (draw s).redraw.console = false ∧
    (draw s).redraw.log = (s.redraw.log && !s.showLog) ∧
    (s.redraw.any = false → draw s = s) := by
  by_cases h : s.redraw.any = true
  · rw [draw_eq]
    simp [h]
  · have h' : s.redraw.any = false := by
      cases hx : s.redraw.any
      · rfl
      · exact absurd hx h
    have hflags := h'
    unfold Redraw.any at hflags
    simp only [Bool.or_eq_false_iff] at hflags
    obtain ⟨⟨⟨⟨⟨⟨hl, hc⟩, hr⟩, hco⟩, hhh⟩, hf⟩, hlg⟩ := hflags
    rw [draw_eq]
    simp [h', hl, hc, hr, hco, hhh, hf, hlg]

/-- Witness for `c2_draw_flag_discipline` at the baseline state, where no
flag is set and the pass is a no-op. -/
theorem c2_draw_flag_discipline_witness :
    (draw s0).redraw.footer = (s0.redraw.footer && s0.mode.isInput) ∧ draw s0 = s0 := by
  exact ⟨(c2_draw_flag_discipline s0).1, (c2_draw_flag_discipline s0).2.2.2.2.2.2.2 (by decide)⟩

/-- The rename loop touches only the rename log and the error count. -/
theorem renameLoop_fields (env : Env) (l : List (Path × Path)) (mgr : MState) :
    (renameLoop env mgr l).1.tempExists = mgr.tempExists ∧
    (renameLoop env mgr l).1.center = mgr.center ∧
    (renameLoop env mgr l).1.redraw = mgr.redraw ∧
    (renameLoop env mgr l).1.errors = mgr.errors := by
  induction l generalizing mgr with
  | nil => exact ⟨rfl, rfl, rfl, rfl⟩
  | cons hd tl ih =>
      obtain ⟨o, n⟩ := hd
      by_cases h : env.renameOk o n = true
      · simpa [renameLoop, h] using ih _
      · simp [renameLoop, h]

/-- The rename loop returns normally when every rename succeeds. -/
theorem renameLoop_ok (env : Env) (l : List (Path × Path)) (mgr : MState)
    (h : ∀ q ∈ l, env.renameOk q.1 q.2 = true) :
    (renameLoop env mgr l).2 = RustRes.ok := by
  induction l generalizing mgr with
  | nil => rfl
  | cons hd tl ih =>
      obtain ⟨o, n⟩ := hd
      have ho : env.renameOk o n = true := h (o, n) (List.mem_cons_self _ _)
      simpa [renameLoop, ho] using ih _ (fun q hq => h q (List.mem_cons_of_mem _ hq))

/-- The rename loop never panics. -/
theorem renameLoop_no_panic (env : Env) (l : List (Path × Path)) (mgr : MState) :
    (renameLoop env mgr l).2 ≠ RustRes.panicked := by
  induction l generalizing mgr with
  | nil => simp [renameLoop]
  | cons hd tl ih =>
      obtain ⟨o, n⟩ := hd
      by_cases h : env.renameOk o n = true
      · simpa [renameLoop, h] using ih _
      · simp [renameLoop, h]

/-- The epilogue preserves the rename log and the error count. -/
theorem bulkFinish_fields (mgr : MState) :
    (bulkFinish mgr).1.renames = mgr.renames ∧
    (bulkFinish mgr).1.errors = mgr.errors := by
  by_cases h : mgr.tempExists = true
  · simp [bulkFinish, h, redrawEverything]
  · have h' : mgr.tempExists = false := by
      cases hx : mgr.tempExists
      · rfl
      · exact absurd hx h
    simp [bulkFinish, h']

/-- The epilogue performs the full cleanup when the temporary file is
still present. -/
theorem bulkFinish_cleanup (mgr : MState) (h : mgr.tempExists = true) :
    bulkCleanupOk (bulkFinish mgr) := by
  simp [bulkFinish, h, bulkCleanupOk, redrawEverything, ManagedPanel.unfreeze]

/-- C3 counterexample: when the opener fails, `bulkrename` deletes the
temporary file in its error arm, then fails deleting it a second time in
the epilogue and propagates that error with the center panel still frozen
and no full redraw issued (starting unfrozen with no pending redraw). -/
theorem c3_opener_failure_leaves_frozen :
    s0.center.frozen = false ∧
    (bulkrename envOpenFail s0 [["a"]]).2 = RustRes.err ∧
    (bulkrename envOpenFail s0 [["a"]]).1.center.frozen = true ∧
    (bulkrename envOpenFail s0 [["a"]]).1.redraw.left = false ∧
    (bulkrename envOpenFail s0 [["a"]]).1.tempExists = false := by
  exact ⟨rfl, rfl, rfl, rfl, rfl⟩

/-- C3 as amended: the temporary file is deleted, the center panel
unfrozen and a full redraw issued on the line-count-mismatch, collision
and all-renames-succeed exit paths; on opener failure the temporary file
is deleted, but the routine then errors out of its second deletion with
the panel still frozen and no redraw issued. -/
theorem c3_bulkrename_cleanup (env : Env) (s : MState) (paths : List Path) (cs : List Char)
    (hnames : (fileNamesOf paths).isSome = true) (hw : env.writeOk = true) :
    (env.openerOk = false →
      (bulkrename env s paths).2 = RustRes.err ∧
      (bulkrename env s paths).1.center.frozen = true ∧
      (bulkrename env s paths).1.tempExists = false ∧
      (bulkrename env s paths).1.redraw = s.redraw) ∧
    (env.openerOk = true → env.readTemp = Option.some cs →
      ((rustLines (trimNl cs)).length ≠ paths.length →
        bulkCleanupOk (bulkrename env s paths)) ∧
      ((newPathsOf paths cs).filter env.pathExists ≠ [] →
        bulkCleanupOk (bulkrename env s paths)) ∧
      ((rustLines (trimNl cs)).length = paths.length →
        (newPathsOf paths cs).filter env.pathExists = [] →
        (∀ q ∈ paths.zip (newPathsOf paths cs), env.renameOk q.1 q.2 = true) →
        bulkCleanupOk (bulkrename env s paths))) := by
  obtain ⟨ns, hns⟩ : ∃ ns, fileNamesOf paths = Option.some ns := by
    cases hx : fileNamesOf paths
    · rw [hx] at hnames; exact absurd hnames (by decide)
    · exact ⟨_, rfl⟩
  constructor
  · intro ho
    simp [bulkrename, hns, hw, ho, bulkFinish, ManagedPanel.freeze]
  · intro ho hr
    refine ⟨?_, ?_, ?_⟩
    · intro hlen
      simp only [bulkrename, hns, hw, ho, hr, Bool.not_true, Bool.false_eq_true, if_false]
      rw [if_pos hlen]
      exact bulkFinish_cleanup _ rfl
    · intro hcol
      by_cases hlen : (rustLines (trimNl cs)).length = paths.length
      · have hpos : 0 < ((newPathsOf paths cs).filter env.pathExists).length := by
          cases hx : (newPathsOf paths cs).filter env.pathExists
          · exact absurd hx hcol
          · simp [hx]
        simp only [bulkrename, hns, hw, ho, hr, Bool.not_true, Bool.false_eq_true, if_false]
        rw [if_neg (not_not_intro hlen), if_pos hpos]
        exact bulkFinish_cleanup _ rfl
      · simp only [bulkrename, hns, hw, ho, hr, Bool.not_true, Bool.false_eq_true, if_false]
        rw [if_pos hlen]
        exact bulkFinish_cleanup _ rfl
    · intro hlen hcol hren
      have hnopos : ¬ 0 < ((newPathsOf paths cs).filter env.pathExists).length := by
        rw [hcol]; simp
      simp only [bulkrename, hns, hw, ho, hr, Bool.not_true, Bool.false_eq_true, if_false]
      rw [if_neg (not_not_intro hlen), if_neg hnopos]
      have hok := renameLoop_ok env (paths.zip (newPathsOf paths cs))
        { s with tempExists := true, center := s.center.freeze } hren
      have hfields := renameLoop_fields env (paths.zip (newPathsOf paths cs))
        { s with tempExists := true, center := s.center.freeze }
      rcases hrl : renameLoop env { s with tempExists := true, center := s.center.freeze }
        (paths.zip (newPathsOf paths cs)) with ⟨mgr2, tag⟩
      rw [hrl] at hok hfields
      simp only at hok
      subst hok
      have hte : mgr2.tempExists = true := by simpa using hfields.1
      exact bulkFinish_cleanup mgr2 hte

/-- Witness for `c3_bulkrename_cleanup`: a two-path bulk rename whose
edited file has two lines, no collisions and succeeding renames performs
the full cleanup. -/
theorem c3_bulkrename_cleanup_witness :
    bulkCleanupOk (bulkrename envOk s0 [["d", "a"], ["d", "b"]]) := by
  exact ((c3_bulkrename_cleanup envOk s0 [["d", "a"], ["d", "b"]] ['x', '\n', 'y']
    (by decide) (by rfl)).2 (by rfl) (by rfl)).2.2 (by decide) (by decide)
    (by intro q hq; rfl)

/-- C4: under a successful opener run and temp-file read, a line-count
mismatch or an existing derived destination path aborts `bulkrename`
with an error logged and no rename performed; renames are performed only
when the line count matches and no derived path exists. -/
theorem c4_bulkrename_all_or_nothing (env : Env) (s : MState) (paths : List Path) (cs : List Char)
    (hnames : (fileNamesOf paths).isSome = true) (hw : env.writeOk = true)
    (ho : env.openerOk = true) (hr : env.readTemp = Option.some cs) :
    ((rustLines (trimNl cs)).length ≠ paths.length →
      (bulkrename env s paths).1.renames = s.renames ∧
      (bulkrename env s paths).1.errors = s.errors + 1) ∧
    ((newPathsOf paths cs).filter env.pathExists ≠ [] →
      (bulkrename env s paths).1.renames = s.renames ∧
      (bulkrename env s paths).1.errors = s.errors + 1) ∧
    ((bulkrename env s paths).1.renames ≠ s.renames →
      (rustLines (trimNl cs)).length = paths.length ∧
      (newPathsOf paths cs).filter env.pathExists = []) := by
  obtain ⟨ns, hns⟩ : ∃ ns, fileNamesOf paths = Option.some ns := by
    cases hx : fileNamesOf paths
    · rw [hx] at hnames; exact absurd hnames (by decide)
    · exact ⟨_, rfl⟩
  have habort : ∀ m : MState,
      (bulkFinish m).1.renames = m.renames ∧ (bulkFinish m).1.errors = m.errors :=
    fun m => bulkFinish_fields m
  refine ⟨?_, ?_, ?_⟩
  · intro hlen
    simp only [bulkrename, hns, hw, ho, hr, Bool.not_true, Bool.false_eq_true, if_false]
    rw [if_pos hlen]
    exact (habort _)
  · intro hcol
    by_cases hlen : (rustLines (trimNl cs)).length = paths.length
    · have hpos : 0 < ((newPathsOf paths cs).filter env.pathExists).length := by
        cases hx : (newPathsOf paths cs).filter env.pathExists
        · exact absurd hx hcol
        · simp [hx]
      simp only [bulkrename, hns, hw, ho, hr, Bool.not_true, Bool.false_eq_true, if_false]
      rw [if_neg (not_not_intro hlen), if_pos hpos]
      exact (habort _)
    · simp only [bulkrename, hns, hw, ho, hr, Bool.not_true, Bool.false_eq_true, if_false]
      rw [if_pos hlen]
      exact (habort _)
  · intro hchanged
    by_cases hlen : (rustLines (trimNl cs)).length = paths.length
    · by_cases hcol : (newPathsOf paths cs).filter env.pathExists = []
      · exact ⟨hlen, hcol⟩
      · exfalso
        apply hchanged
        have hpos : 0 < ((newPathsOf paths cs).filter env.pathExists).length := by
          cases hx : (newPathsOf paths cs).filter env.pathExists
          · exact absurd hx hcol
          · simp [hx]
        simp only [bulkrename, hns, hw, ho, hr, Bool.not_true, Bool.false_eq_true, if_false]
        rw [if_neg (not_not_intro hlen), if_pos hpos]
        exact (habort _).1
    · exfalso
      apply hchanged
      simp only [bulkrename, hns, hw, ho, hr, Bool.not_true, Bool.false_eq_true, if_false]
      rw [if_pos hlen]
      exact (habort _).1

/-- Witness for `c4_bulkrename_all_or_nothing`: a one-path bulk rename whose
edited file has two lines aborts with no rename and one error logged. -/
theorem c4_bulkrename_all_or_nothing_witness :
    (bulkrename envOk s0 [["d", "a"]]).1.renames = s0.renames ∧
    (bulkrename envOk s0 [["d", "a"]]).1.errors = s0.errors + 1 := by
  exact (c4_bulkrename_all_or_nothing envOk s0 [["d", "a"]] ['x', '\n', 'y']
    (by decide) (by rfl) (by rfl) (by rfl)).1 (by decide)

/-- Marking an element preserves the paths at every index. -/
theorem setMarkedAt_path (l : List DirElem) (i j : Nat) :
    ((setMarkedAt l i).get? j).map (fun e => e.path) =
      (l.get? j).map (fun e => e.path) := by
  induction l generalizing i j with
  | nil => cases i <;> rfl
  | cons e es ih =>
      cases i with
      | zero => cases j <;> simp [setMarkedAt]
      | succ n =>
          cases j with
          | zero => simp [setMarkedAt]
          | succ m => simpa [setMarkedAt] using ih n m

/-- Marking the selection does not move it. -/
theorem selectedPath_markSelectedItem (p : DirPanel) :
    selectedPath (markSelectedItem p) = selectedPath p := by
  unfold markSelectedItem selectedPath
  cases hs : p.selected with
  | none => simp [hs]
  | some i => simpa using setMarkedAt_path p.elements i i

/-- The element at the marked index is afterwards marked. -/
theorem setMarkedAt_any (l : List DirElem) (i : Nat) (e : DirElem)
    (h : l.get? i = Option.some e) :
    (setMarkedAt l i).any (fun x => decide (x.path = e.path) && x.marked) = true := by
  induction l generalizing i with
  | nil => simp at h
  | cons a as ih =>
      cases i with
      | zero =>
          simp only [List.get?] at h
          cases h
          simp [setMarkedAt]
      | succ n =>
          simp only [List.get?] at h
          simp only [setMarkedAt, List.any_cons, Bool.or_eq_true]
          exact Or.inr (ih n h)

/-- Marking the selection marks the selected path. -/
theorem elemMarked_markSelectedItem (p : DirPanel) (q : Path)
    (h : selectedPath p = Option.some q) :
    elemMarked (markSelectedItem p) q = true := by
  unfold selectedPath at h
  cases hs : p.selected with
  | none => rw [hs] at h; simp at h
  | some i =>
      rw [hs] at h
      simp only [Option.bind] at h
      cases hg : p.elements.get? i with
      | none => rw [hg] at h; simp at h
      | some e =>
          rw [hg] at h
          simp only [Option.map, Option.some.injEq] at h
          unfold markSelectedItem elemMarked
          rw [hs]
          simp only
          rw [← h]
          exact setMarkedAt_any p.elements i e hg

/-- Membership in the marked paths of one listing. -/
theorem mem_map_filter_marked (l : List DirElem) (p : Path) :
    p ∈ (l.filter (fun e => e.marked)).map (fun e => e.path) ↔
      l.any (fun e => decide (e.path = p) && e.marked) = true := by
  simp only [List.mem_map, List.mem_filter, List.any_eq_true, Bool.and_eq_true,
    decide_eq_true_eq]
  constructor
  · rintro ⟨e, ⟨he, hm⟩, hp⟩
    exact ⟨e, he, hp, hm⟩
  · rintro ⟨e, he, hp, hm⟩
    exact ⟨e, ⟨he, hm⟩, hp⟩

/-- C5: `marked_or_selected()` returns the marked paths of left, center
and a directory preview on the right (membership is equivalent to being
marked in one of the three); when that union is empty it marks the
center selection and returns exactly that path (or nothing when the
center has no selection). -/
theorem c5_marked_or_selected (s : MState) :
    (markedPaths s ≠ [] → markedOrSelected s = (s, markedPaths s)) ∧
    (∀ p, p ∈ markedPaths s ↔
      (elemMarked s.left.panel p = true ∨ elemMarked s.center.panel p = true ∨
        (∃ q, s.right.panel = PreviewPanel.dir q ∧ elemMarked q p = true))) ∧
    (markedPaths s = [] →
      (∀ p, selectedPath s.center.panel = Option.some p →
        (markedOrSelected s).2 = [p] ∧
        elemMarked (markedOrSelected s).1.center.panel p = true) ∧
      (selectedPath s.center.panel = Option.none → (markedOrSelected s).2 = [])) := by
  refine ⟨?_, ?_, ?_⟩
  · intro h
    have he : (markedPaths s).isEmpty = false := by
      cases hx : markedPaths s
      · exact absurd hx h
      · rfl
    simp [markedOrSelected, he]
  · intro p
    unfold markedPaths markedItems elemMarked
    simp only [List.map_append, List.mem_append]
    cases hrp : s.right.panel with
    | dir q =>
        simp only [mem_map_filter_marked]
        constructor
        · rintro ((h | h) | h)
          · exact Or.inl h
          · exact Or.inr (Or.inl h)
          · exact Or.inr (Or.inr ⟨q, rfl, h⟩)
        · rintro (h | h | ⟨q2, hq2, h⟩)
          · exact Or.inl (Or.inl h)
          · exact Or.inl (Or.inr h)
          · cases hq2
            exact Or.inr h
    | file fp =>
        simp only [mem_map_filter_marked, List.map_nil, List.not_mem_nil, or_false]
        constructor
        · rintro (h | h)
          · exact Or.inl h
          · exact Or.inr (Or.inl h)
        · rintro (h | h | ⟨q2, hq2, h⟩)
          · exact Or.inl h
          · exact Or.inr h
          · exact absurd hq2 (by simp)
    | empty =>
        simp only [mem_map_filter_marked, List.map_nil, List.not_mem_nil, or_false]
        constructor
        · rintro (h | h)
          · exact Or.inl h
          · exact Or.inr (Or.inl h)
        · rintro (h | h | ⟨q2, hq2, h⟩)
          · exact Or.inl h
          · exact Or.inr h
          · exact absurd hq2 (by simp)
  · intro h
    have he : (markedPaths s).isEmpty = true := by rw [h]; rfl
    constructor
    · intro p hp
      have hsel : selectedPath
          (markSelectedItem s.center.panel) = Option.some p := by
        rw [selectedPath_markSelectedItem]; exact hp
      constructor
      · simp [markedOrSelected, he, hsel]
      · have hm := elemMarked_markSelectedItem s.center.panel p hp
        simp [markedOrSelected, he, hsel, hm]
    · intro hp
      have hsel : selectedPath (markSelectedItem s.center.panel) = Option.none := by
        rw [selectedPath_markSelectedItem]; exact hp
      simp [markedOrSelected, he, hsel]

/-- Witness for `c5_marked_or_selected`: with one marked center entry the
marked set itself is returned; the union test holds at that entry. -/
theorem c5_marked_or_selected_witness :
    markedOrSelected sMarkedCenter = (sMarkedCenter, markedPaths sMarkedCenter) ∧
    (["d", "a"] ∈ markedPaths sMarkedCenter ↔
      (elemMarked sMarkedCenter.left.panel ["d", "a"] = true ∨
        elemMarked sMarkedCenter.center.panel ["d", "a"] = true ∨
        (∃ q, sMarkedCenter.right.panel = PreviewPanel.dir q ∧
          elemMarked q ["d", "a"] = true))) := by
  exact ⟨(c5_marked_or_selected sMarkedCenter).1 (by decide),
    (c5_marked_or_selected sMarkedCenter).2.1 (["d", "a"] : Path)⟩

/-- `unmark_left_right` leaves no mark in the left panel nor in a
directory preview on the right. -/
theorem leftRightUnmarked_unmarkLeftRight (s : MState) :
    leftRightUnmarked (unmarkLeftRight s) = true := by
  unfold unmarkLeftRight leftRightUnmarked unmarkElems redrawPanels
  cases hrp : s.right.panel <;> simp [hrp, List.all_eq_true]

/-- Redraw flags do not affect the marks. -/
theorem leftRightUnmarked_redrawPanels (t : MState) :
    leftRightUnmarked (redrawPanels t) = leftRightUnmarked t := rfl

/-- C6 counterexample: when the center panel has no selection,
`move_right` returns without clearing any mark, so a pre-existing mark in
the left panel survives the horizontal move. -/
theorem c6_move_right_keeps_marks :
    selectedPath sMarkedLeft.center.panel = Option.none ∧
    moveRight envOk sMarkedLeft = sMarkedLeft ∧
    leftRightUnmarked sMarkedLeft = false := by
  exact ⟨rfl, rfl, rfl⟩

/-- C6 as amended: after `move_right` with a center selection, or
`move_left` with a left selection, no mark remains in the left panel or a
directory preview on the right; without the respective selection the move
is a complete no-op and marks are untouched. -/
theorem c6_horizontal_moves_unmark (env : Env) (s : MState) :
    ((selectedPath s.center.panel).isSome = true →
      leftRightUnmarked (moveRight env s) = true) ∧
    (selectedPath s.center.panel = Option.none → moveRight env s = s) ∧
    ((selectedPath s.left.panel).isSome = true →
      leftRightUnmarked (moveLeft env s) = true) ∧
    (selectedPath s.left.panel = Option.none → moveLeft env s = s) := by
  refine ⟨?_, ?_, ?_, ?_⟩
  · intro h
    obtain ⟨sel, hsel⟩ : ∃ sel, selectedPath s.center.panel = Option.some sel := by
      cases hx : selectedPath s.center.panel
      · rw [hx] at h; exact absurd h (by decide)
      · exact ⟨_, rfl⟩
    unfold moveRight
    rw [hsel]
    exact leftRightUnmarked_unmarkLeftRight _
  · intro h
    unfold moveRight
    rw [h]
  · intro h
    have hne : (selectedPath s.left.panel).isNone = false := by
      cases hx : selectedPath s.left.panel
      · rw [hx] at h; exact absurd h (by decide)
      · rfl
    unfold moveLeft
    rw [hne]
    simp only [Bool.false_eq_true, if_false]
    rw [leftRightUnmarked_redrawPanels]
    exact leftRightUnmarked_unmarkLeftRight _
  · intro h
    have hne : (selectedPath s.left.panel).isNone = true := by rw [h]; rfl
    unfold moveLeft
    rw [hne]
    rfl

/-- Witness for `c6_horizontal_moves_unmark`: moving right on a concrete
state with a selection leaves left and right unmarked; moving left with
an empty left panel is a no-op. -/
theorem c6_horizontal_moves_unmark_witness :
    leftRightUnmarked (moveRight envOk sSel) = true ∧ moveLeft envOk sSel = sSel := by
  exact ⟨(c6_horizontal_moves_unmark envOk sSel).1 (by decide),
    (c6_horizontal_moves_unmark envOk sSel).2.2.2 (by decide)⟩

/-- When every path has a file name, the unwraps of `bulkrename`'s name
extraction cannot fire. -/
theorem fileNamesOf_isSome (paths : List Path)
    (h : ∀ p ∈ paths, (pathFileName p).isSome = true) :
    (fileNamesOf paths).isSome = true := by
  induction paths with
  | nil => rfl
  | cons p ps ih =>
      have hp := h p (List.mem_cons_self _ _)
      obtain ⟨n, hn⟩ : ∃ n, pathFileName p = Option.some n := by
        cases hx : pathFileName p
        · rw [hx] at hp; exact absurd hp (by decide)
        · exact ⟨_, rfl⟩
      have hps := ih (fun q hq => h q (List.mem_cons_of_mem _ hq))
      obtain ⟨ns, hns⟩ : ∃ ns, fileNamesOf ps = Option.some ns := by
        cases hx : fileNamesOf ps
        · rw [hx] at hps; exact absurd hps (by decide)
        · exact ⟨_, rfl⟩
      simp [fileNamesOf, hn, hns]

/-- The epilogue of `bulkrename` never panics. -/
theorem bulkFinish_no_panic (m : MState) : (bulkFinish m).2 ≠ RustRes.panicked := by
  unfold bulkFinish
  split
  · simp
  · simp

/-- `bulkrename` panics only when some path has no file name. -/
theorem bulkrename_panics_only (env : Env) (s : MState) (paths : List Path)
    (h : (bulkrename env s paths).2 = RustRes.panicked) :
    fileNamesOf paths = Option.none := by
  cases hns : fileNamesOf paths with
  | none => rfl
  | some ns =>
      exfalso
      by_cases hw : env.writeOk = true
      · by_cases ho : env.openerOk = true
        · cases hr : env.readTemp with
          | none =>
              simp only [bulkrename, hns, hw, ho, hr, Bool.not_true,
                Bool.false_eq_true, if_false] at h
              exact absurd h (by decide)
          | some cs =>
              simp only [bulkrename, hns, hw, ho, hr, Bool.not_true,
                Bool.false_eq_true, if_false] at h
              by_cases hlen : (rustLines (trimNl cs)).length = paths.length
              · rw [if_neg (not_not_intro hlen)] at h
                by_cases hcol :
                    0 < ((newPathsOf paths cs).filter env.pathExists).length
                · rw [if_pos hcol] at h
                  exact bulkFinish_no_panic _ h
                · rw [if_neg hcol] at h
                  rcases hrl : renameLoop env
                      { s with tempExists := true, center := s.center.freeze }
                      (paths.zip (newPathsOf paths cs)) with ⟨m2, tag⟩
                  rw [hrl] at h
                  have hnp := renameLoop_no_panic env
                    (paths.zip (newPathsOf paths cs))
                    { s with tempExists := true, center := s.center.freeze }
                  rw [hrl] at hnp
                  cases tag with
                  | ok => exact bulkFinish_no_panic _ h
                  | err => simp at h
                  | panicked => exact hnp rfl
              · rw [if_pos hlen] at h
                exact bulkFinish_no_panic _ h
        · have ho' : env.openerOk = false := by
            cases hx : env.openerOk
            · rfl
            · exact absurd hx ho
          simp only [bulkrename, hns, hw, ho', Bool.not_true, Bool.not_false,
            Bool.false_eq_true, if_false, if_true] at h
          exact bulkFinish_no_panic _ h
      · have hw' : env.writeOk = false := by
          cases hx : env.writeOk
          · rfl
          · exact absurd hx hw
        simp only [bulkrename, hns, hw', Bool.not_false, if_true] at h
        exact absurd h (by decide)

/-- A total destination oracle keeps the delete loop panic-free. -/
theorem deleteLoop_total (env : Env) (files : List Path) (s : MState)
    (h : ∀ p, (env.getDest p).isSome = true) :
    (deleteLoop env s files).isSome = true := by
  induction files generalizing s with
  | nil => rfl
  | cons f fs ih =>
      obtain ⟨d, hd⟩ : ∃ d, env.getDest f = Option.some d := by
        cases hx : env.getDest f
        · have := h f; rw [hx] at this; exact absurd this (by decide)
        · exact ⟨_, rfl⟩
      by_cases hr : env.renameOk f d = true
      · simpa [deleteLoop, hd, hr] using ih _
      · simpa [deleteLoop, hd, hr] using ih _

/-- C7 counterexample: with a selection and a `get_destination` that
returns an error, handling the Delete command panics on the `unwrap` at
`manager.rs` line 909. -/
theorem c7_delete_unwrap_panics :
    (handleEvent envDestErr sSel (Event.key { code := KeyCode.char 'd' })).2.1 =
      RustRes.panicked := by
  rfl

/-- C7 as amended: handling Delete cannot panic when `get_destination`
succeeds on every target — with an error result it panics on the unwrap —
and the bulk-rename routine cannot panic when every selected path has a
file name — a path without one panics on the unwrap in the name
extraction. -/
theorem c7_no_panic_conditions (env : Env) (s : MState) (files paths : List Path) :
    ((∀ p, (env.getDest p).isSome = true) →
      (deleteLoop env s files).isSome = true) ∧
    ((∀ p, (env.getDest p).isSome = true) →
      (deleteCmd env s).2.1 ≠ RustRes.panicked) ∧
    ((∀ p ∈ paths, (pathFileName p).isSome = true) →
      (bulkrename env s paths).2 ≠ RustRes.panicked) := by
  refine ⟨fun h => deleteLoop_total env files s h, ?_, ?_⟩
  · intro h
    unfold deleteCmd
    have htot := deleteLoop_total env (markedOrSelected s).2
      (unmarkAllItems (markedOrSelected s).1) h
    obtain ⟨s2, hs2⟩ : ∃ s2, deleteLoop env (unmarkAllItems (markedOrSelected s).1)
        (markedOrSelected s).2 = Option.some s2 := by
      cases hx : deleteLoop env (unmarkAllItems (markedOrSelected s).1)
          (markedOrSelected s).2
      · rw [hx] at htot; exact absurd htot (by decide)
      · exact ⟨_, rfl⟩
    simp only []
    rw [hs2]
    simp
  · intro h hpan
    have := bulkrename_panics_only env s paths hpan
    have hsome := fileNamesOf_isSome paths h
    rw [this] at hsome
    exact absurd hsome (by decide)

/-- Witness for `c7_no_panic_conditions` with the benign environment,
whose destination oracle always succeeds and on a path with a file
name. -/
theorem c7_no_panic_conditions_witness :
    (deleteLoop envOk s0 [["d", "a"]]).isSome = true ∧
    (deleteCmd envOk sSel).2.1 ≠ RustRes.panicked ∧
    (bulkrename envOk s0 [["d", "a"]]).2 ≠ RustRes.panicked := by
  refine ⟨(c7_no_panic_conditions envOk s0 [["d", "a"]] [["d", "a"]]).1 (fun p => rfl),
    (c7_no_panic_conditions envOk sSel [["d", "a"]] [["d", "a"]]).2.1 (fun p => rfl),
    (c7_no_panic_conditions envOk s0 [["d", "a"]] [["d", "a"]]).2.2 ?_⟩
  intro p hp
  cases hp with
  | head => rfl
  | tail _ hq => cases hq

/-- A pushed string ends in the pushed character. -/
theorem getLast?_push (l : List Char) (c : Char) :
    (l ++ [c]).getLast? = Option.some c :=
  List.getLast?_concat l

/-- C8: in Search mode a character keystroke appends its lowercased form
to the input — the stored string then ends with the lowercased character
— and Backspace removes the last character, both pushing the current
input into the center panel's search string; Enter finalizes the search,
selects the next marked match, issues a delayed preview load and returns
to Normal mode. -/
theorem c8_search_mode (env : Env) (s : MState) (input : String)
    (h : s.mode = Mode.search input) :
    (∀ ch : Char,
      (handleEvent env s (Event.key { code := KeyCode.char ch })).1.mode =
        Mode.search (input.push (asciiLower ch)) ∧
      (handleEvent env s (Event.key { code := KeyCode.char ch })).1.center.panel.search =
        Option.some (input.push (asciiLower ch)) ∧
      (input.push (asciiLower ch)).toList.getLast? = Option.some (asciiLower ch)) ∧
    ((handleEvent env s (Event.key { code := KeyCode.backspace })).1.mode =
        Mode.search (strPop input) ∧
      (handleEvent env s (Event.key { code := KeyCode.backspace })).1.center.panel.search =
        Option.some (strPop input)) ∧
    ((handleEvent env s (Event.key { code := KeyCode.enter })).1.mode = Mode.normal ∧
      (handleEvent env s (Event.key { code := KeyCode.enter })).1.center.panel =
        (s.center.panel.finishSearch input).selectNextMarked ∧
      (handleEvent env s (Event.key { code := KeyCode.enter })).1.right.reqs =
        s.right.reqs ++
          [(selectedPath ((s.center.panel.finishSearch input).selectNextMarked),
            s.right.state.cnt + 1, true)]) := by
  have hchar : ∀ k : KeyEvent, k.code ≠ KeyCode.esc →
      handleEvent env s (Event.key k) = handleSearch env s input k := by
    intro k hk
    simp only [handleEvent]
    rw [if_neg hk, h]
  refine ⟨fun ch => ?_, ?_, ?_⟩
  · rw [hchar { code := KeyCode.char ch } (by simp)]
    refine ⟨rfl, rfl, ?_⟩
    exact getLast?_push input.toList (asciiLower ch)
  · rw [hchar { code := KeyCode.backspace } (by simp)]
    exact ⟨rfl, rfl⟩
  · rw [hchar { code := KeyCode.enter } (by simp)]
    exact ⟨rfl, rfl, rfl⟩

/-- Witness for `c8_search_mode` on a concrete Search-mode state: `G` is
stored lowercased and Enter returns to Normal mode. -/
theorem c8_search_mode_witness :
    (handleEvent envOk { s0 with mode := Mode.search "a" }
      (Event.key { code := KeyCode.char 'G' })).1.mode = Mode.search "ag" ∧
    (handleEvent envOk { s0 with mode := Mode.search "a" }
      (Event.key { code := KeyCode.enter })).1.mode = Mode.normal := by
  refine ⟨?_, ((c8_search_mode envOk { s0 with mode := Mode.search "a" } "a" rfl).2.2).1⟩
  have := ((c8_search_mode envOk { s0 with mode := Mode.search "a" } "a" rfl).1 'G').1
  simpa using this

/-- The escape key is not a prefix of a binding that does not start with
it. -/
theorem esc_isPrefixOf_false (l : List KeyCode)
    (hl : l.head? ≠ Option.some KeyCode.esc) :
    [KeyCode.esc].isPrefixOf l = false := by
  cases l with
  | nil => rfl
  | cons a t =>
      have hne : (KeyCode.esc == a) = false := by
        cases hb : (KeyCode.esc == a) with
        | false => rfl
        | true =>
            refine absurd (show (a :: t).head? = Option.some KeyCode.esc from ?_) hl
            rw [← eq_of_beq hb]
            rfl
      simp [List.isPrefixOf, hne]

/-- Feeding Escape to the cleared parser of an escape-free binding table
returns `Command::None` with an empty buffer. -/
theorem parserAdd_esc (p : ParserState) (h : escFree p.bindings = true) :
    parserAdd (parserClear p) { code := KeyCode.esc } =
      ({ p with buf := [] }, Command.none) := by
  unfold parserAdd parserClear
  simp only [List.nil_append]
  have hfind : p.bindings.find? (fun x => decide (x.1 = [KeyCode.esc])) = Option.none := by
    apply List.find?_eq_none.mpr
    intro x hx
    have hh := List.all_eq_true.mp h x hx
    simp only [decide_eq_true_eq] at hh
    simp only [decide_eq_true_eq]
    intro hc
    rw [hc] at hh
    exact hh rfl
  rw [hfind]
  have hany : (p.bindings.any fun x =>
      decide (¬ [KeyCode.esc] = x.1) && [KeyCode.esc].isPrefixOf x.1) = false := by
    apply List.any_eq_false.mpr
    intro x hx
    have hh := List.all_eq_true.mp h x hx
    simp only [decide_eq_true_eq] at hh
    rw [esc_isPrefixOf_false x.1 hh]
    simp
  rw [hany]
  simp

/-- `jump` touches neither mode nor parser. -/
theorem jump_fields (env : Env) (s : MState) (path : Path) :
    (jump env s path).mode = s.mode ∧ (jump env s path).parser = s.parser := by
  unfold jump
  split
  · exact ⟨rfl, rfl⟩
  · split
    · exact ⟨rfl, rfl⟩
    · exact ⟨rfl, rfl⟩

/-- After a `jump` to an existing path the center panel is bound to it. -/
theorem jump_center_path (env : Env) (s : MState) (path : Path)
    (hex : env.pathExists path = true) :
    (jump env s path).center.panel.path = path := by
  unfold jump
  by_cases he : path = s.center.panel.path
  · rw [if_pos he]
    exact he.symm
  · rw [if_neg he, if_pos hex]
    rfl

/-- `unmark_left_right` touches neither mode, parser nor center. -/
theorem unmarkLeftRight_fields (s : MState) :
    (unmarkLeftRight s).mode = s.mode ∧ (unmarkLeftRight s).parser = s.parser ∧
    (unmarkLeftRight s).center = s.center := by
  unfold unmarkLeftRight
  cases hrp : s.right.panel <;> simp [hrp, redrawPanels]

/-- `unmark_all_items` preserves mode, parser, and the center panel's
search and path. -/
theorem unmarkAllItems_fields (s : MState) :
    (unmarkAllItems s).mode = s.mode ∧ (unmarkAllItems s).parser = s.parser ∧
    (unmarkAllItems s).center.panel.search = s.center.panel.search ∧
    (unmarkAllItems s).center.panel.path = s.center.panel.path := by
  unfold unmarkAllItems
  obtain ⟨h1, h2, h3⟩ := unmarkLeftRight_fields
    { s with center := { s.center with panel :=
        { s.center.panel with elements := unmarkElems s.center.panel.elements } } }
  exact ⟨h1, h2, by rw [h3], by rw [h3]⟩

/-- `unmark_all_items` leaves no mark anywhere. -/
theorem allUnmarked_unmarkAllItems (s : MState) :
    allUnmarked (unmarkAllItems s) = true := by
  unfold unmarkAllItems allUnmarked
  obtain ⟨-, -, hc⟩ := unmarkLeftRight_fields
    { s with center := { s.center with panel :=
        { s.center.panel with elements := unmarkElems s.center.panel.elements } } }
  rw [hc, leftRightUnmarked_unmarkLeftRight]
  simp [unmarkElems, List.all_eq_true]

/-- The reset part of the escape pre-block: Normal mode, cleared parser,
cleared center search, center path untouched, nothing marked. -/
theorem escPreTail_fields (t : MState) :
    (escPreTail t).mode = Mode.normal ∧
    (escPreTail t).parser = parserClear t.parser ∧
    (escPreTail t).center.panel.search = Option.none ∧
    (escPreTail t).center.panel.path = t.center.panel.path ∧
    allUnmarked (escPreTail t) = true := by
  unfold escPreTail
  refine ⟨?_, ?_, ?_, ?_, ?_⟩
  · rw [(unmarkAllItems_fields _).1]
    rfl
  · rw [(unmarkAllItems_fields _).2.1]
    rfl
  · rw [(unmarkAllItems_fields _).2.2.1]
    rfl
  · rw [(unmarkAllItems_fields _).2.2.2]
    rfl
  · exact allUnmarked_unmarkAllItems _

/-- The full escape pre-block: Normal mode, cleared parser, cleared
search, nothing marked, and — from Console mode with an existing
pre-console path — the center bound to the pre-console path. -/
theorem escPre_fields (env : Env) (s : MState) :
    (escPre env s).mode = Mode.normal ∧
    (escPre env s).parser = parserClear s.parser ∧
    (escPre env s).center.panel.search = Option.none ∧
    allUnmarked (escPre env s) = true ∧
    (∀ c, s.mode = Mode.console c → env.pathExists s.preConsolePath = true →
      (escPre env s).center.panel.path = s.preConsolePath) := by
  unfold escPre
  cases hm : s.mode with
  | console c0 =>
      obtain ⟨h1, h2, h3, h4, h5⟩ := escPreTail_fields (jump env s s.preConsolePath)
      obtain ⟨j1, j2⟩ := jump_fields env s s.preConsolePath
      refine ⟨h1, ?_, h3, h5, ?_⟩
      · rw [h2, j2]
      · intro c hc hex
        rw [h4]
        exact jump_center_path env s s.preConsolePath hex
  | normal =>
      obtain ⟨h1, h2, h3, h4, h5⟩ := escPreTail_fields s
      exact ⟨h1, h2, h3, h5, fun c hc hex => absurd hc (by simp)⟩
  | createItem i d =>
      obtain ⟨h1, h2, h3, h4, h5⟩ := escPreTail_fields s
      exact ⟨h1, h2, h3, h5, fun c hc hex => absurd hc (by simp)⟩
  | search i =>
      obtain ⟨h1, h2, h3, h4, h5⟩ := escPreTail_fields s
      exact ⟨h1, h2, h3, h5, fun c hc hex => absurd hc (by simp)⟩
  | rename i =>
      obtain ⟨h1, h2, h3, h4, h5⟩ := escPreTail_fields s
      exact ⟨h1, h2, h3, h5, fun c hc hex => absurd hc (by simp)⟩

/-- C10: an Escape key event, in any mode, leaves the manager in Normal
mode with an empty parser buffer, a cleared center search and no marked
item anywhere (provided no binding starts with Escape, as in the spec's
table); from Console mode it jumps back to the remembered pre-console
path when that path exists. -/
theorem c10_escape_resets (env : Env) (s : MState)
    (h : escFree s.parser.bindings = true) :
    (handleEvent env s (Event.key { code := KeyCode.esc })).2.1 = RustRes.ok ∧
    (handleEvent env s (Event.key { code := KeyCode.esc })).2.2 = false ∧
    (handleEvent env s (Event.key { code := KeyCode.esc })).1.mode = Mode.normal ∧
    (handleEvent env s (Event.key { code := KeyCode.esc })).1.parser.buf = [] ∧
    (handleEvent env s (Event.key { code := KeyCode.esc })).1.center.panel.search =
      Option.none ∧
    allUnmarked (handleEvent env s (Event.key { code := KeyCode.esc })).1 = true ∧
    (∀ c, s.mode = Mode.console c → env.pathExists s.preConsolePath = true →
      (handleEvent env s (Event.key { code := KeyCode.esc })).1.center.panel.path =
        s.preConsolePath) := by
  obtain ⟨e1, e2, e3, e4, e5⟩ := escPre_fields env s
  have hstep : handleEvent env s (Event.key { code := KeyCode.esc }) =
      handleNormal env (escPre env s) { code := KeyCode.esc } := by
    simp only [handleEvent]
    rw [if_pos trivial, e1]
  rw [hstep]
  unfold handleNormal
  rw [e2, parserAdd_esc s.parser h]
  exact ⟨rfl, rfl, e1, rfl, e3, e4, fun c hc hex => e5 c hc hex⟩

/-- Witness for `c10_escape_resets`: pressing Escape on a concrete state
in Search mode with a marked entry ends in Normal mode with no marks. -/
theorem c10_escape_resets_witness :
    (handleEvent envOk { sMarkedCenter with mode := Mode.search "a" }
      (Event.key { code := KeyCode.esc })).1.mode = Mode.normal ∧
    allUnmarked (handleEvent envOk { sMarkedCenter with mode := Mode.search "a" }
      (Event.key { code := KeyCode.esc })).1 = true := by
  exact ⟨(c10_escape_resets envOk { sMarkedCenter with mode := Mode.search "a" }
      (by decide)).2.2.1,
    (c10_escape_resets envOk { sMarkedCenter with mode := Mode.search "a" }
      (by decide)).2.2.2.2.2.1⟩

/-- C9: a closed directory channel, a closed preview channel, a closed
event stream, or a handled Quit command all break the `run()` loop, which
then emits the restore sequence (clear all, cursor to home, cursor show,
flush) and returns the center panel's current path. -/
theorem c9_shutdown (env : Env) (s : MState) (rest : List LoopInput) (k : KeyEvent) :
    runLoop env s (LoopInput.dirMsg Option.none :: rest) =
      RunRes.finished (s.out ++ restoreSeq) s.center.panel.path ∧
    runLoop env s (LoopInput.prevMsg Option.none :: rest) =
      RunRes.finished (s.out ++ restoreSeq) s.center.panel.path ∧
    runLoop env s (LoopInput.term Option.none :: rest) =
      RunRes.finished (s.out ++ restoreSeq) s.center.panel.path ∧
    (s.mode = Mode.normal → k.code ≠ KeyCode.esc →
      (parserAdd s.parser k).2 = Command.quit →
      runLoop env s (LoopInput.term (Option.some (Event.key k)) :: rest) =
        RunRes.finished (s.out ++ restoreSeq) s.center.panel.path) := by
  refine ⟨rfl, rfl, rfl, ?_⟩
  intro hm hk hq
  have hstep : handleEvent env s (Event.key k) = handleNormal env s k := by
    simp only [handleEvent]
    rw [if_neg hk, hm]
  have hnorm : handleNormal env s k =
      ({ s with parser := (parserAdd s.parser k).1 }, RustRes.ok, true) := by
    unfold handleNormal
    rcases hpr : parserAdd s.parser k with ⟨p2, cmd⟩
    rw [hpr] at hq
    simp only at hq
    subst hq
    rfl
  simp only [runLoop, runStep, hstep, hnorm]

/-- Witness for `c9_shutdown`: a concrete quit binding fires and the loop
finishes with the restore sequence and the center path. -/
theorem c9_shutdown_witness :
    runLoop envOk
      { s0 with parser := { bindings := [([KeyCode.char 'q'], Command.quit)], buf := [] } }
      [LoopInput.term (Option.some (Event.key { code := KeyCode.char 'q' }))] =
      RunRes.finished restoreSeq [] := by
  have h := (c9_shutdown envOk
    { s0 with parser := { bindings := [([KeyCode.char 'q'], Command.quit)], buf := [] } }
    [] { code := KeyCode.char 'q' }).2.2.2 rfl (by simp) (by decide)
  simpa using h

end Rfm
